import Mathlib

/-!
Verification of the flowgger log-relay core against its specification.

The Rust sources are shallowly embedded: strings are `List Char` (all byte
offsets used by the sources fall on character boundaries, so character
positions are used throughout), byte buffers are `List Nat` (each element a
byte value), `u8`/`usize` are `Nat` with explicit `% 2^w` where overflow
matters, `f64` timestamps are `ℚ`, and fallible Rust functions return
`Except String _` carrying the source's error strings.
-/

set_option maxRecDepth 10000
set_option maxHeartbeats 2000000

set_option allowUnsafeReducibility true in
attribute [semireducible] Rat.add Rat.mul Rat.inv Rat.sub Rat.ofScientific

abbrev Str := List Char

/-- Decidable equality for `Except` results. -/
instance {e a : Type} [DecidableEq e] [DecidableEq a] : DecidableEq (Except e a) := fun
  | .ok x, .ok y =>
    match decEq x y with
    | isTrue h => isTrue (by rw [h])
    | isFalse h => isFalse (by intro hc; cases hc; exact h rfl)
  | .ok _, .error _ => isFalse (by intro hc; cases hc)
  | .error _, .ok _ => isFalse (by intro hc; cases hc)
  | .error x, .error y =>
    match decEq x y with
    | isTrue h => isTrue (by rw [h])
    | isFalse h => isFalse (by intro hc; cases hc; exact h rfl)

/-- Rust `str::splitn(n, sep)`: at most `n` pieces, the last piece holds the
unsplit remainder (including separators). Auxiliary: `k` splits remain. -/
def splitnAux (sep : Char) : Nat → Str → Str → List Str
  | _, acc, [] => [acc.reverse]
  | 0, acc, rest => [acc.reverse ++ rest]
  | Nat.succ k, acc, c :: cs =>
    if c = sep then acc.reverse :: splitnAux sep k [] cs
    else splitnAux sep (Nat.succ k) (c :: acc) cs

/-- Rust `str::splitn(n, sep)` collected into a list. -/
def rustSplitn (n : Nat) (sep : Char) (s : Str) : List Str :=
  match n with
  | 0 => []
  | Nat.succ k => splitnAux sep k [] s

/-- Decimal value of an ASCII digit. -/
def digitVal (c : Char) : Nat := c.toNat - 48

/-- Accumulate decimal digits into a value; `none` if a non-digit occurs. -/
def digitsToNat : List Char → Nat → Option Nat
  | [], acc => some acc
  | c :: cs, acc =>
    if c.isDigit then digitsToNat cs (acc * 10 + digitVal c) else none

/-- Strip the optional leading `+` sign accepted by Rust integer parsing. -/
def stripPlus : Str → Str
  | '+' :: rest => rest
  | other => other

/-- Rust `str::parse::<uN>()`: optional leading `+`, then one or more ASCII
digits; the value must fit below `bound` (e.g. 256 for `u8`). -/
def rustParseUInt (bound : Nat) (s : Str) : Option Nat :=
  match stripPlus s with
  | [] => none
  | _ =>
    match digitsToNat (stripPlus s) 0 with
    | none => none
    | some v => if v < bound then some v else none

/-- Rust `str::parse::<u8>()`. -/
def parseU8 (s : Str) : Option Nat := rustParseUInt 256 s

/-- Rust `str::parse::<usize>()` on a 64-bit platform. -/
def parseUsize (s : Str) : Option Nat := rustParseUInt (2 ^ 64) s

/-- The ASCII digit character for a value below ten. -/
def digitChar (d : Nat) : Char :=
  if d = 0 then '0' else if d = 1 then '1' else if d = 2 then '2' else if d = 3 then '3'
  else if d = 4 then '4' else if d = 5 then '5' else if d = 6 then '6' else if d = 7 then '7'
  else if d = 8 then '8' else '9'

/-- Decimal digits of a `Nat`, fuelled for structural recursion (`fuel`
bounds the digit count; `n + 1` always suffices). -/
def natCharsAux : Nat → Nat → Str
  | 0, _ => []
  | Nat.succ fuel, n =>
    if n < 10 then [digitChar n]
    else natCharsAux fuel (n / 10) ++ [digitChar (n % 10)]

/-- Decimal representation of a `Nat`, as characters (Rust `to_string`). -/
def natChars (n : Nat) : Str := natCharsAux (n + 1) n

/-- Decimal representation of an `Int` (Rust `i32::to_string`). -/
def intChars (i : Int) : Str :=
  if i < 0 then '-' :: natChars (-i).toNat else natChars i.toNat

/-- ASCII whitespace and Unicode whitespace chars recognised by Rust
`char::is_whitespace`, restricted to the chars that matter here. -/
def rustIsWhitespace (c : Char) : Bool :=
  c = ' ' || c = '\t' || c = '\n' || c = '\r' || c.toNat = 11 || c.toNat = 12

/-- Rust `str::trim_end`. -/
def rustTrimEnd (s : Str) : Str :=
  (s.reverse.dropWhile rustIsWhitespace).reverse

/-- Rust `str::trim`. -/
def rustTrim (s : Str) : Str :=
  rustTrimEnd (s.dropWhile rustIsWhitespace)

/-- One step of UTF-8 decoding: decode the first scalar value of the byte
list, returning it and the remaining bytes. Faithful to `std::str::from_utf8`
(overlong encodings, surrogates and out-of-range values are rejected). -/
def utf8DecodeOne : List Nat → Option (Nat × List Nat)
  | [] => none
  | b0 :: rest =>
    if b0 < 0x80 then some (b0, rest)
    else if 0xC2 ≤ b0 ∧ b0 ≤ 0xDF then
      match rest with
      | b1 :: rest' =>
        if 0x80 ≤ b1 ∧ b1 ≤ 0xBF then some ((b0 - 0xC0) * 64 + (b1 - 0x80), rest')
        else none
      | _ => none
    else if 0xE0 ≤ b0 ∧ b0 ≤ 0xEF then
      match rest with
      | b1 :: b2 :: rest' =>
        let lo1 := if b0 = 0xE0 then 0xA0 else 0x80
        let hi1 := if b0 = 0xED then 0x9F else 0xBF
        if (lo1 ≤ b1 ∧ b1 ≤ hi1) ∧ (0x80 ≤ b2 ∧ b2 ≤ 0xBF) then
          some ((b0 - 0xE0) * 4096 + (b1 - 0x80) * 64 + (b2 - 0x80), rest')
        else none
      | _ => none
    else if 0xF0 ≤ b0 ∧ b0 ≤ 0xF4 then
      match rest with
      | b1 :: b2 :: b3 :: rest' =>
        let lo1 := if b0 = 0xF0 then 0x90 else 0x80
        let hi1 := if b0 = 0xF4 then 0x8F else 0xBF
        if (lo1 ≤ b1 ∧ b1 ≤ hi1) ∧ (0x80 ≤ b2 ∧ b2 ≤ 0xBF) ∧ (0x80 ≤ b3 ∧ b3 ≤ 0xBF) then
          some ((b0 - 0xF0) * 262144 + (b1 - 0x80) * 4096 + (b2 - 0x80) * 64 + (b3 - 0x80), rest')
        else none
      | _ => none
    else none

/-- Full UTF-8 decoding of a byte list (Rust `str::from_utf8`), fuelled by
the list length. -/
def utf8DecodeAux : Nat → List Nat → Option Str
  | _, [] => some []
  | 0, _ => none
  | Nat.succ fuel, bs =>
    match utf8DecodeOne bs with
    | none => none
    | some (cp, rest) =>
      match utf8DecodeAux fuel rest with
      | none => none
      | some cs => some (Char.ofNat cp :: cs)

/-- Rust `str::from_utf8` on a byte list. -/
def utf8Decode (bs : List Nat) : Option Str := utf8DecodeAux bs.length bs

/-- UTF-8 encoding of a character list (sizes of the scalar values). -/
def utf8Encode (cs : Str) : List Nat :=
  cs.flatMap fun c =>
    let n := c.toNat
    if n < 0x80 then [n]
    else if n < 0x800 then [0xC0 + n / 64, 0x80 + n % 64]
    else if n < 0x10000 then [0xE0 + n / 4096, 0x80 + n / 64 % 64, 0x80 + n % 64]
    else [0xF0 + n / 262144, 0x80 + n / 4096 % 64, 0x80 + n / 64 % 64, 0x80 + n % 64]

/-! ### Calendar arithmetic (the `time` crate's proleptic Gregorian calendar) -/

/-- Gregorian leap year. -/
def isLeapYear (y : Int) : Bool :=
  y % 4 = 0 ∧ (y % 100 ≠ 0 ∨ y % 400 = 0)

/-- Days in a month of a given year. -/
def daysInMonth (y : Int) (m : Nat) : Nat :=
  if m = 2 then (if isLeapYear y then 29 else 28)
  else if m = 4 ∨ m = 6 ∨ m = 9 ∨ m = 11 then 30
  else 31

/-- Days from 1970-01-01 to `y-m-d` in the proleptic Gregorian calendar
(Howard Hinnant's `days_from_civil`). -/
def daysFromCivil (y : Int) (m d : Nat) : Int :=
  let y' : Int := if m ≤ 2 then y - 1 else y
  let era : Int := Int.fdiv y' 400
  let yoe : Nat := (y' - era * 400).toNat
  let mp : Nat := if m > 2 then m - 3 else m + 9
  let doy : Nat := (153 * mp + 2) / 5 + d - 1
  let doe : Nat := yoe * 365 + yoe / 4 - yoe / 100 + doy
  era * 146097 + (doe : Int) - 719468

/-- Inverse of `daysFromCivil` (Hinnant's `civil_from_days`). -/
def civilFromDays (z : Int) : Int × Nat × Nat :=
  let z' := z + 719468
  let era : Int := Int.fdiv z' 146097
  let doe : Nat := (z' - era * 146097).toNat
  let yoe : Nat := (doe - doe / 1460 + doe / 36524 - doe / 146096) / 365
  let y : Int := (yoe : Int) + era * 400
  let doy : Nat := doe - (365 * yoe + yoe / 4 - yoe / 100)
  let mp : Nat := (5 * doy + 2) / 153
  let d : Nat := doy - (153 * mp + 2) / 5 + 1
  let m : Nat := if mp < 10 then mp + 3 else mp - 9
  (if m ≤ 2 then y + 1 else y, m, d)

/-! ### RFC 3339 timestamps

The decoder calls `OffsetDateTime::parse(_, &Rfc3339)` from the `time` crate
and converts the result to fractional Unix seconds with
`PreciseTimestamp::from_offset_datetime` (whole seconds plus
`nanosecond() / 1e9`, as every `PreciseTimestamp` constructor in
`src/flowgger/utils` does). Both are embedded here; `f64` is modelled as `ℚ`.
-/

/-- Parse exactly two ASCII digits. -/
def parse2Digits : Str → Option (Nat × Str)
  | c1 :: c2 :: rest =>
    if c1.isDigit ∧ c2.isDigit then some (digitVal c1 * 10 + digitVal c2, rest)
    else none
  | _ => none

/-- Parse exactly four ASCII digits. -/
def parse4Digits : Str → Option (Nat × Str)
  | c1 :: c2 :: c3 :: c4 :: rest =>
    if c1.isDigit ∧ c2.isDigit ∧ c3.isDigit ∧ c4.isDigit then
      some (digitVal c1 * 1000 + digitVal c2 * 100 + digitVal c3 * 10 + digitVal c4, rest)
    else none
  | _ => none

/-- Expect a given character. -/
def expectChar (c : Char) : Str → Option Str
  | c' :: rest => if c' = c then some rest else none
  | [] => none

/-- Parse the optional fractional-second part: a dot followed by one to nine
digits, yielding nanoseconds. -/
def parseFrac : Str → Option (Nat × Str)
  | '.' :: rest =>
    let digits := rest.takeWhile Char.isDigit
    if digits.length = 0 ∨ digits.length > 9 then none
    else
      match digitsToNat digits 0 with
      | none => none
      | some v => some (v * 10 ^ (9 - digits.length), rest.dropWhile Char.isDigit)
  | _ => none

/-- Parse the RFC 3339 UTC offset, returning its value in seconds. -/
def parseOffset : Str → Option (Int × Str)
  | c :: rest =>
    if c = 'Z' ∨ c = 'z' then some (0, rest)
    else if c = '+' ∨ c = '-' then
      match parse2Digits rest with
      | none => none
      | some (oh, rest1) =>
        match expectChar ':' rest1 with
        | none => none
        | some rest2 =>
          match parse2Digits rest2 with
          | none => none
          | some (om, rest3) =>
            if oh ≤ 23 ∧ om ≤ 59 then
              let secs : Int := (oh : Int) * 3600 + om * 60
              some (if c = '-' then -secs else secs, rest3)
            else none
    else none
  | [] => none

/-- The time-of-day and offset part of an RFC 3339 timestamp, after the
`T`: `HH:MM:SS[.frac](Z|±HH:MM)`, ending the input. -/
def parseRfc3339Time (s : Str) : Option (Nat × Nat × Nat × Nat × Int) :=
  match parse2Digits s with
  | none => none
  | some (h, s) =>
    match expectChar ':' s with
    | none => none
    | some s =>
      match parse2Digits s with
      | none => none
      | some (mi, s) =>
        match expectChar ':' s with
        | none => none
        | some s =>
          match parse2Digits s with
          | none => none
          | some (sec, s) =>
            let fracRes := match parseFrac s with
              | some (n, s') => (n, s')
              | none => (0, s)
            match parseOffset fracRes.2 with
            | none => none
            | some (off, s) =>
              if s = [] then some (h, mi, sec, fracRes.1, off) else none

/-- The date part of an RFC 3339 timestamp: `YYYY-MM-DD` then `T` (or
`t`). -/
def parseRfc3339Date (s : Str) : Option (Nat × Nat × Nat × Str) :=
  match parse4Digits s with
  | none => none
  | some (y, s) =>
    match expectChar '-' s with
    | none => none
    | some s =>
      match parse2Digits s with
      | none => none
      | some (mo, s) =>
        match expectChar '-' s with
        | none => none
        | some s =>
          match parse2Digits s with
          | none => none
          | some (d, s) =>
            match s with
            | c :: rest => if c = 'T' ∨ c = 't' then some (y, mo, d, rest) else none
            | [] => none

/-- Parse a full RFC 3339 timestamp (`time`'s `Rfc3339` well-known format),
returning UTC Unix seconds and the nanosecond part. The whole input must be
consumed, and all calendar fields are range-checked. -/
def parseRfc3339 (s : Str) : Option (Int × Nat) :=
  match parseRfc3339Date s with
  | none => none
  | some (y, mo, d, s) =>
    match parseRfc3339Time s with
    | none => none
    | some (h, mi, sec, nanos, off) =>
      if 1 ≤ mo ∧ mo ≤ 12 ∧ 1 ≤ d ∧ d ≤ daysInMonth (y : Int) mo ∧
          h ≤ 23 ∧ mi ≤ 59 ∧ sec ≤ 59 then
        some (daysFromCivil (y : Int) mo d * 86400 + h * 3600 + mi * 60 + sec - off, nanos)
      else none

/-- `rfc3339_to_unix` from the RFC 5424 decoder: RFC 3339 text to fractional
Unix seconds (`f64` modelled as `ℚ`). -/
def rfc3339ToUnix (s : Str) : Except String ℚ :=
  match parseRfc3339 s with
  | some (secs, nanos) => .ok ((secs : ℚ) + (nanos : ℚ) / 1000000000)
  | none => .error "Unable to parse the date from RFC3339 to Unix time in RFC5424 decoder"

/-! ### The canonical Record (src/flowgger/record.rs) -/

/-- `SDValue`: tagged union of structured-data values. `F64` is modelled
as `ℚ`. -/
inductive SDValue where
  | str : Str → SDValue
  | bool : Bool → SDValue
  | f64 : ℚ → SDValue
  | i64 : Int → SDValue
  | u64 : Nat → SDValue
  | null : SDValue
deriving DecidableEq, Repr

/-- `StructuredData`: one bracketed SD block. -/
structure StructuredData where
  sd_id : Option Str
  pairs : List (Str × SDValue)
deriving DecidableEq, Repr

/-- `Record`: the canonical in-memory event. `ts` is `f64` in Rust,
modelled as `ℚ`; `facility`/`severity` are `u8`, modelled as `Nat`. -/
structure Record where
  ts : ℚ
  hostname : Str
  facility : Option Nat
  severity : Option Nat
  appname : Option Str
  procid : Option Str
  msgid : Option Str
  msg : Option Str
  full_msg : Option Str
  sd : Option (List StructuredData)
deriving DecidableEq, Repr

/-! ### RFC 5424 decoder (src/flowgger/decoder/rfc5424_decoder.rs) -/

/-- Priority octet split into facility and severity. -/
structure Pri where
  facility : Nat
  severity : Nat
deriving DecidableEq, Repr

/-- `BOM::parse`: strip an optional UTF-8 BOM; otherwise the line must start
with the separator `<`. (The BOM is three bytes, i.e. one char.) -/
def bomParse (line : Str) : Except String Str :=
  match line with
  | c :: rest =>
    if c = '﻿' then .ok rest
    else if c = '<' then .ok line
    else .error "Unsupported BOM"
  | [] => .error "Unsupported BOM"

/-- Fetch the `i`-th piece produced by `splitn`, with the decoder's
`ok_or` error message. -/
def getPart (parts : List Str) (i : Nat) (e : String) : Except String Str :=
  match parts.get? i with
  | some p => .ok p
  | none => .error e

/-- `parse_pri_version`: the line must start with `<`, the `u8` PRI is read
up to the `>`, the version must be exactly `1`; facility is `pri >> 3`,
severity `pri & 7`. -/
def parsePriVersion (line : Str) : Except String Pri :=
  if line.head? = some '<' then
    match getPart (rustSplitn 2 '>' (line.drop 1)) 0 "Empty priority" with
    | .error e => .error e
    | .ok priPart =>
      match parseU8 priPart with
      | none => .error "Invalid priority"
      | some priEncoded =>
        match getPart (rustSplitn 2 '>' (line.drop 1)) 1 "Missing version" with
        | .error e => .error e
        | .ok version =>
          if version = ['1'] then .ok ⟨priEncoded >>> 3, priEncoded &&& 7⟩
          else .error "Unsupported version"
  else .error "The priority should be inside brackets"

/-- `parse_ts` = `rfc3339_to_unix`. -/
def parseTs (line : Str) : Except String ℚ := rfc3339ToUnix line

/-- `unescape_sd_value`: `\\`, `\"`, `\]` unescape; any other `\x` is kept
verbatim. -/
def unescapeSdValueAux : Str → Bool → Str
  | [], _ => []
  | c :: cs, esc =>
    match c, esc with
    | '\\', false => unescapeSdValueAux cs true
    | _, false => c :: unescapeSdValueAux cs false
    | '"', true => c :: unescapeSdValueAux cs false
    | '\\', true => c :: unescapeSdValueAux cs false
    | ']', true => c :: unescapeSdValueAux cs false
    | _, true => '\\' :: c :: unescapeSdValueAux cs false

/-- `unescape_sd_value` entry point. -/
def unescapeSdValue (value : Str) : Str := unescapeSdValueAux value false

/-- SD-name character class: printable ASCII 33–126 except 32, 34, 61, 93. -/
def isSdName (c : Char) : Bool :=
  match c.toNat with
  | 32 | 34 | 61 | 93 => false
  | n => 33 ≤ n ∧ n ≤ 126

/-- Mutable loop state of `parse_sd_data`'s `for (i, c)` loop. -/
structure SdLoopState where
  inName : Bool
  inValue : Bool
  nameStart : Nat
  valueStart : Nat
  name : Option Str
  esc : Bool
  pairs : List (Str × SDValue)

/-- Slice `sd[a..b]` on character positions (all Rust byte offsets used in
`parse_sd_data` sit on char boundaries, so char positions are isomorphic). -/
def strSlice (sd : Str) (a b : Nat) : Str := (sd.drop a).take (b - a)

/-- The body of `parse_sd_data`'s character loop: one transition of the
state machine, mirroring the ordered `match` arms of the source.
Returns `Sum.inl` to break with the `after_sd` position, `Sum.inr` to
continue, or an error. -/
def sdStep (sd : Str) (i : Nat) (c : Char) (st : SdLoopState) :
    Except String (Sum Nat SdLoopState) :=
  let nameSome := st.name.isSome
  if c = ' ' ∧ st.esc = false ∧ st.inName = false ∧ nameSome = false then
    .ok (.inr st)
  else if c = ']' ∧ st.esc = false ∧ st.inName = false ∧ nameSome = false then
    .ok (.inl (i + 1))
  else if st.esc = false ∧ isSdName c ∧ st.inName = false ∧ nameSome = false then
    .ok (.inr { st with inName := true, nameStart := i })
  else if isSdName c ∧ st.inName ∧ nameSome = false then
    .ok (.inr st)
  else if c = '=' ∧ st.esc = false ∧ st.inName then
    .ok (.inr { st with name := some (strSlice sd st.nameStart i), inName := false })
  else if c = '"' ∧ st.esc = false ∧ nameSome ∧ st.inValue = false then
    .ok (.inr { st with inValue := true, valueStart := i + 1 })
  else if c = '\\' ∧ st.esc = false ∧ st.inValue then
    .ok (.inr { st with esc := true })
  else if c = '"' ∧ st.esc = false ∧ st.inValue then
    let value := unescapeSdValue (strSlice sd st.valueStart i)
    let pair := ('_' :: st.name.getD [], SDValue.str value)
    .ok (.inr { st with inValue := false, pairs := st.pairs ++ [pair], name := none })
  else if st.inValue then
    .ok (.inr { st with esc := false })
  else if c = '"' ∧ st.esc = false ∧ st.inName = false ∧ nameSome = false then
    .ok (.inr st)
  else .error "Format error in the structured data"

/-- Run the `parse_sd_data` loop over the remaining characters (at index
`i`), returning the `after_sd` break position if any. -/
def sdLoop (sd : Str) : Nat → Str → SdLoopState → Except String (Option Nat × SdLoopState)
  | _, [], st => .ok (none, st)
  | i, c :: cs, st => do
    match ← sdStep sd i c st with
    | .inl afterSd => .ok (some afterSd, st)
    | .inr st' => sdLoop sd (i + 1) cs st'

/-- `parse_sd_data`: parse one SD block of `line[offset..]`, returning the
block, the tail string it was found in, and the position just after `]`. -/
def parseSdData (line : Str) (offset : Nat) : Except String (StructuredData × Str × Nat) := do
  let parts := rustSplitn 2 ' ' (line.drop offset)
  let sdId ← getPart parts 0 "Missing structured data id"
  let sd ← getPart parts 1 "Missing structured data"
  let st0 : SdLoopState :=
    { inName := false, inValue := false, nameStart := 0, valueStart := 0
      name := none, esc := false, pairs := [] }
  let (afterSd, st) ← sdLoop sd 0 sd st0
  match afterSd with
  | none => .error "Missing ] after structured data"
  | some off => .ok (⟨some sdId, st.pairs⟩, sd, off)

/-- `parse_msg`: the free-form message after structured data. -/
def parseMsg (line : Str) (offset : Nat) : Option Str :=
  if offset > line.length then none
  else
    match rustTrim (line.drop offset) with
    | [] => none
    | m => some m

/-- The `while next_sd` loop of `parse_data`, fuelled (each iteration
strictly shrinks the leftover string). -/
def parseDataLoop : Nat → Str → Nat → List StructuredData →
    Except String (List StructuredData × Option Str)
  | 0, _, _, _ => .error "Malformated RFC5424 message"
  | Nat.succ fuel, leftover, offset, acc => do
    let (sd, newLeftover, newOffset) ← parseSdData leftover (offset + 1)
    let acc := acc ++ [sd]
    match (newLeftover.drop newOffset).head? with
    | none => .error "Missing log message"
    | some '[' => parseDataLoop fuel newLeftover newOffset acc
    | some ' ' => .ok (acc, parseMsg newLeftover newOffset)
    | some _ => .error "Malformated RFC5424 message"

/-- `parse_data`: either `-` plus message, or one-or-more SD blocks plus
message. -/
def parseData (line : Str) : Except String (List StructuredData × Option Str) :=
  match line.head? with
  | none => .error "Missing log message"
  | some '-' => .ok ([], parseMsg line 1)
  | some '[' => parseDataLoop (line.length + 1) line 0 []
  | some _ => .error "Malformated RFC5424 message"

/-- `RFC5424Decoder::decode`. -/
def rfc5424Decode (line : Str) : Except String Record := do
  let line ← bomParse line
  let parts := rustSplitn 7 ' ' line
  let priVersion ← parsePriVersion (← getPart parts 0 "Missing priority and version")
  let ts ← parseTs (← getPart parts 1 "Missing timestamp")
  let hostname ← getPart parts 2 "Missing hostname"
  let appname ← getPart parts 3 "Missing application name"
  let procid ← getPart parts 4 "Missing process id"
  let msgid ← getPart parts 5 "Missing message id"
  let (sdVec, msg) ← parseData (← getPart parts 6 "Missing message data")
  .ok
    { ts := ts
      hostname := hostname
      facility := some priVersion.facility
      severity := some priVersion.severity
      appname := some appname
      procid := some procid
      msgid := some msgid
      sd := if sdVec.isEmpty then none else some sdVec
      msg := msg
      full_msg := some (rustTrimEnd line) }

/-! ### RFC 5424 encoder (src/flowgger/encoder/rfc5424_encoder.rs) and the
`StructuredData` display (src/flowgger/record.rs) -/

/-- Zero-padded decimal of width `w`. -/
def padNat (w n : Nat) : Str :=
  let s := natChars n
  List.replicate (w - s.length) '0' ++ s

/-- Display of an `f64` structured-data value. Rust prints the shortest
round-tripping decimal; this model prints up to nine fractional digits of
the `ℚ` value. No claim depends on this rendering. -/
def ratDisplay (q : ℚ) : Str :=
  let sign : Str := if q < 0 then ['-'] else []
  let q := |q|
  let ip : Nat := q.floor.toNat
  let fracNanos : Nat := ((q - q.floor) * 1000000000).floor.toNat
  if fracNanos = 0 then sign ++ natChars ip
  else sign ++ natChars ip ++ '.' :: ((padNat 9 fracNanos).reverse.dropWhile (· = '0')).reverse

/-- Display of one `SDValue` in `name="value"` position. -/
def sdValueDisplay : SDValue → Str
  | .str v => v
  | .bool b => if b then "true".data else "false".data
  | .f64 q => ratDisplay q
  | .i64 i => intChars i
  | .u64 n => natChars n
  | .null => []

/-- `impl fmt::Display for StructuredData`: `[sd_id name="value" …]`, with a
leading `_` stripped from pair names; `Null` values print the bare name. -/
def sdDisplay (sd : StructuredData) : Str :=
  let pairsStr : Str := sd.pairs.flatMap fun (name, value) =>
    let name := match name with
      | '_' :: rest => rest
      | other => other
    match value with
    | .null => ' ' :: name
    | v => ' ' :: name ++ '=' :: '"' :: sdValueDisplay v ++ ['"']
  '[' :: sd.sd_id.getD [] ++ pairsStr ++ [']']

/-- Truncation toward zero (Rust `as i128` on an in-range `f64`). -/
def truncQ (q : ℚ) : Int := if 0 ≤ q then q.floor else -((-q).floor)

/-- Smallest Unix second representable by the `time` crate's
`OffsetDateTime` (`-9999-01-01T00:00:00Z`). -/
def minUnixSec : Int := daysFromCivil (-9999) 1 1 * 86400

/-- Largest Unix second representable (`9999-12-31T23:59:59Z`). -/
def maxUnixSec : Int := daysFromCivil 9999 12 31 * 86400 + 86399

/-- The encoder's timestamp path: `(ts * 1000.0) as i128` nanoseconds,
`OffsetDateTime::from_unix_timestamp_nanos`, then RFC 3339 formatting
(UTC `Z`, subseconds printed only when nonzero, trailing zeros trimmed). -/
def rfc5424EncodeTs (ts : ℚ) : Except String Str :=
  let ms : Int := truncQ (ts * 1000)
  let ns : Int := ms * 1000000
  let secs : Int := Int.fdiv ns 1000000000
  let nanos : Nat := (Int.fmod ns 1000000000).toNat
  if secs < minUnixSec ∨ maxUnixSec < secs then .error "Failed to parse date"
  else
    let days : Int := Int.fdiv secs 86400
    let tod : Nat := (Int.fmod secs 86400).toNat
    let (y, m, d) := civilFromDays days
    if y < 0 then .error "Failed to parse date as Rfc3339 format"
    else
      let frac : Str :=
        if nanos = 0 then []
        else '.' :: ((padNat 9 nanos).reverse.dropWhile (· = '0')).reverse
      .ok <| padNat 4 y.toNat ++ '-' :: padNat 2 m ++ '-' :: padNat 2 d ++
        'T' :: padNat 2 (tod / 3600) ++ ':' :: padNat 2 (tod % 3600 / 60) ++
        ':' :: padNat 2 (tod % 60) ++ frac ++ ['Z']

/-- The fields `RFC5424Encoder::encode` writes after the timestamp:
hostname, appname (omitted entirely when absent), procid and msgid (each
`-` when absent), structured data (or `- `), and the message. -/
def rfc5424EncodeTail (record : Record) : Str :=
  record.hostname ++ [' '] ++
  (match record.appname with
   | some appname => appname ++ [' ']
   | none => []) ++
  (match record.procid with
   | some procid => procid
   | none => ['-']) ++ [' '] ++
  (match record.msgid with
   | some msgid => msgid
   | none => ['-']) ++ [' '] ++
  (match record.sd with
   | some sdVec => sdVec.flatMap sdDisplay ++ [' ']
   | none => "- ".data) ++
  (match record.msg with
   | some msg => msg
   | none => [])

/-- `RFC5424Encoder::encode`. The `u8` expression
`((facility << 3) & 0xF8) + (severity & 0x7)` is modelled with an explicit
`% 256` at the point where the shift can overflow. -/
def rfc5424Encode (record : Record) : Except String Str := do
  let priPart : Str :=
    match record.facility, record.severity with
    | some f, some s =>
      '<' :: natChars ((((f <<< 3) % 256) &&& 0xF8) + (s &&& 0x7)) ++ ['>']
    | _, _ => "<13>".data
  let date ← rfc5424EncodeTs record.ts
  .ok <| priPart ++ '1' :: ' ' :: date ++ ' ' :: rfc5424EncodeTail record

/-! ### GELF encoder (src/flowgger/encoder/gelf_encoder.rs)

The encoder builds a `serde_json` `Value::Object` through an
`ObjectBuilder` (a `BTreeMap`, i.e. keys kept sorted, insertion replaces
the previous value) and serialises it with `serde_json::to_vec`.
-/

/-- `serde_json::Value`. `F64` is modelled as `ℚ`. -/
inductive Json where
  | str : Str → Json
  | bool : Bool → Json
  | f64 : ℚ → Json
  | i64 : Int → Json
  | u64 : Nat → Json
  | null : Json
  | arr : List Json → Json
  | obj : List (Str × Json) → Json
deriving Repr

/-- Lexicographic order on strings by scalar value (agrees with Rust's
byte-wise `str` ordering, since UTF-8 preserves scalar order). -/
def strLt : Str → Str → Bool
  | [], [] => false
  | [], _ :: _ => true
  | _ :: _, [] => false
  | c :: cs, c' :: cs' =>
    if c.toNat < c'.toNat then true
    else if c'.toNat < c.toNat then false
    else strLt cs cs'

/-- `BTreeMap::insert`: keep keys sorted, replace on collision. -/
def jmapInsert (k : Str) (v : Json) : List (Str × Json) → List (Str × Json)
  | [] => [(k, v)]
  | (k', v') :: rest =>
    if strLt k k' then (k, v) :: (k', v') :: rest
    else if k = k' then (k, v) :: rest
    else (k', v') :: jmapInsert k v rest

/-- Association lookup in the JSON object map. -/
def jmapLookup (k : Str) : List (Str × Json) → Option Json
  | [] => none
  | (k', v) :: rest => if k' = k then some v else jmapLookup k rest

/-- JSON string escaping as `serde_json` performs it. -/
def escapeJsonChar (c : Char) : Str :=
  if c = '"' then ['\\', '"']
  else if c = '\\' then ['\\', '\\']
  else if c = '\x08' then ['\\', 'b']
  else if c = '\x0c' then ['\\', 'f']
  else if c = '\n' then ['\\', 'n']
  else if c = '\r' then ['\\', 'r']
  else if c = '\t' then ['\\', 't']
  else if c.toNat < 0x20 then
    '\\' :: 'u' :: (padNat 4 c.toNat).map (fun d => d)
  else [c]

/-- Serialise a JSON value to text (`serde_json::to_vec`, before UTF-8
encoding). -/
def serializeJson : Json → Str
  | .str s => '"' :: s.flatMap escapeJsonChar ++ ['"']
  | .bool b => if b then "true".data else "false".data
  | .f64 q => ratDisplay q
  | .i64 i => intChars i
  | .u64 n => natChars n
  | .null => "null".data
  | .arr xs =>
    Char.ofNat 91 ::
      (List.intercalate [','] (xs.attach.map fun x => serializeJson x.1)) ++ [Char.ofNat 93]
  | .obj m =>
    Char.ofNat 123 ::
      (List.intercalate [','] (m.attach.map fun kv =>
        '"' :: kv.1.1.flatMap escapeJsonChar ++ '"' :: ':' :: serializeJson kv.1.2)) ++
      [Char.ofNat 125]
termination_by j => sizeOf j
decreasing_by
  · have h := List.sizeOf_lt_of_mem x.2
    simp only [Json.arr.sizeOf_spec]
    omega
  · have h := List.sizeOf_lt_of_mem kv.2
    have h2 : sizeOf kv.1.2 < sizeOf kv.1 := by
      obtain ⟨⟨a, b⟩, hm⟩ := kv
      simp [Prod.mk.sizeOf_spec]
    simp only [Json.obj.sizeOf_spec]
    omega

/-- An `SDValue` as a JSON value (the `match value` in the SD loop of
`GelfEncoder::encode`). -/
def sdValueToJson : SDValue → Json
  | .str v => .str v
  | .bool b => .bool b
  | .f64 q => .f64 q
  | .i64 i => .i64 i
  | .u64 n => .u64 n
  | .null => .null

/-- The object built by `GelfEncoder::encode` for a record, given the
configured `output.gelf_extra` key/value pairs. -/
def gelfEncodeMap (extra : List (Str × Str)) (record : Record) : List (Str × Json) :=
  let m := jmapInsert "version".data (.str "1.1".data) []
  let m := jmapInsert "host".data
    (.str (if record.hostname.isEmpty then "unknown".data else record.hostname)) m
  let m := jmapInsert "short_message".data (.str (record.msg.getD "-".data)) m
  let m := jmapInsert "timestamp".data (.f64 record.ts) m
  let m := match record.severity with
    | some severity => jmapInsert "level".data (.u64 severity) m
    | none => m
  let m := match record.full_msg with
    | some fullMsg => jmapInsert "full_message".data (.str fullMsg) m
    | none => m
  let m := match record.appname with
    | some appname => jmapInsert "application_name".data (.str appname) m
    | none => m
  let m := match record.procid with
    | some procid => jmapInsert "process_id".data (.str procid) m
    | none => m
  let m := match record.sd with
    | some sdVec =>
      sdVec.foldl (fun m sd =>
        let m := match sd.sd_id with
          | some sdId => jmapInsert "sd_id".data (.str sdId) m
          | none => m
        sd.pairs.foldl (fun m p => jmapInsert p.1 (sdValueToJson p.2) m) m) m
    | none => m
  extra.foldl (fun m p => jmapInsert p.1 (.str p.2) m) m

/-- `GelfEncoder::encode`: serialise the built object to bytes. The
serialisation of a `Value` tree cannot fail, so the result is always `Ok`. -/
def gelfEncode (extra : List (Str × Str)) (record : Record) : Except String (List Nat) :=
  .ok (utf8Encode (serializeJson (.obj (gelfEncodeMap extra record))))

/-! ### Syslen splitter (src/flowgger/splitter/syslen_splitter.rs)

The byte stream delivered by the reader is modelled as a `List Nat`.
-/

/-- The tail of `read_msglen` after `read_until b' '` produced `nbytesV`
(`rest` is the stream position after the consumed bytes): fewer than two
bytes read is EOF; otherwise drop the final byte, check UTF-8 and parse as
`usize`. -/
def readMsglenBody (nbytesV rest : List Nat) : Except String (Nat × List Nat) :=
  if nbytesV.length ≤ 1 then .error "EOF"
  else
    match utf8Decode (nbytesV.take (nbytesV.length - 1)) with
    | none => .error "Invalid or missing message length. Disable framing, maybe?"
    | some nbytesS =>
      match parseUsize nbytesS with
      | none => .error "Invalid message length. Disable framing, maybe?"
      | some nbytes => .ok (nbytes, rest)

/-- `read_msglen`: `read_until b' '` reads up to and including the first
space (or everything up to EOF), then `readMsglenBody` parses the length. -/
def readMsglen (s : List Nat) : Except String (Nat × List Nat) :=
  let pre := s.takeWhile (· ≠ 32)
  if pre.length < s.length then readMsglenBody (pre ++ [32]) (s.drop (pre.length + 1))
  else readMsglenBody pre []

/-- `read_exact`: take exactly `n` bytes. When fewer are available the
source loops forever on an empty `fill_buf`; that non-returning case is
modelled as `none`. -/
def readExactBytes (n : Nat) (s : List Nat) : Option (List Nat × List Nat) :=
  if n ≤ s.length then some (s.take n, s.drop n) else none

/-- `SyslenSplitter::run`, fuelled: the frames handed to `handle_line`
(and hence to the decoder), in order. A `read_msglen` error, a blocked
`read_exact` or an invalid-UTF-8 frame terminates the loop; `handle_line`
decode/encode errors are only logged, so the loop continues. -/
def syslenRun : Nat → List Nat → List (List Nat)
  | 0, _ => []
  | Nat.succ fuel, input =>
    match readMsglen input with
    | .error _ => []
    | .ok (msgLen, rest) =>
      match readExactBytes msgLen rest with
      | none => []
      | some (frame, rest') =>
        match utf8Decode frame with
        | none => []
        | some _ => frame :: syslenRun fuel rest'

/-! ### Rotating file (src/flowgger/utils/rotating_file.rs)

Size-only rotation (`max_time = 0`, the configuration claims C6 and C10 are
about): `is_time_triggered()` is `false`, so `check_rotation_trigger`
reduces to the `is_size_triggered && is_rotation_size_reached` branch and
the written file is always the base path. The file system is an
association list from paths to file data; `FileData.lastWrite` is a
specification ghost recording the size of the last write appended to the
file (renames carry it along, mirroring "the last single write to it").
-/

/-- A path: directory part and final component. `set_extension` only ever
touches the final component. -/
structure RPath where
  dir : Str
  file : Str
deriving DecidableEq, Repr

/-- Index of the dot starting the Rust `extension()` of a file name: the
last `.`, provided a nonempty stem precedes it. -/
def lastDotIdx (file : Str) : Option Nat :=
  match file.reverse.findIdx? (· = '.') with
  | none => none
  | some j =>
    let i := file.length - 1 - j
    if i = 0 then none else some i

/-- Rust `Path::extension`. -/
def rustExtension (file : Str) : Option Str :=
  match lastDotIdx file with
  | none => none
  | some i => some (file.drop (i + 1))

/-- Rust `Path::file_stem`. -/
def rustFileStem (file : Str) : Str :=
  match lastDotIdx file with
  | none => file
  | some i => file.take i

/-- Rust `PathBuf::set_extension` with a nonempty extension (the file
numbers used here are never empty): replace the extension, or append one. -/
def rustSetExtension (file ext : Str) : Str :=
  rustFileStem file ++ '.' :: ext

/-- `RotatingFile::build_file_path`: `basename.N`, or the basename itself
for a negative index. -/
def buildFilePath (basename : RPath) (fileNum : Int) : RPath :=
  if fileNum < 0 then basename
  else { basename with file := rustSetExtension basename.file (intChars fileNum) }

/-- Contents of one file plus the ghost size of the last write to it. -/
structure FileData where
  content : List Nat
  lastWrite : Nat
deriving DecidableEq, Repr

/-- The file system: unique-key association list. -/
abbrev Fs := List (RPath × FileData)

/-- Lookup a path (first matching entry). -/
def fsLookup : Fs → RPath → Option FileData
  | [], _ => none
  | e :: rest, p => if e.1 = p then some e.2 else fsLookup rest p

/-- Create or replace a file. -/
def fsSet (fs : Fs) (p : RPath) (d : FileData) : Fs :=
  fs.filter (fun e => e.1 ≠ p) ++ [(p, d)]

/-- `fs::rename(src, dest)` with the error ignored (`let _ =`): when `src`
is missing nothing happens, otherwise `dest` is replaced and `src`
removed. -/
def fsRename (fs : Fs) (src dest : RPath) : Fs :=
  match fsLookup fs src with
  | none => fs
  | some d => fsSet (fs.filter (fun e => e.1 ≠ src)) dest d

/-- The size-only rotating file state: configuration plus the tracked
`current_size`. -/
structure RotFile where
  basename : RPath
  maxSize : Nat
  maxFiles : Int
  currentSize : Nat
deriving Repr

/-- `is_size_triggered` with `max_time = 0`. -/
def isSizeTriggered (rf : RotFile) : Bool := 0 < rf.maxSize

/-- `is_rotation_size_reached`. -/
def isRotationSizeReached (rf : RotFile) (bytesToWrite : Nat) : Bool :=
  0 < rf.maxSize ∧ rf.maxSize < rf.currentSize + bytesToWrite

/-- `RotatingFile::open` in size mode: open (create, append) the base
file and record its size as `current_size`. -/
def rfOpen (rf : RotFile) (fs : Fs) : RotFile × Fs :=
  let fs := match fsLookup fs rf.basename with
    | some _ => fs
    | none => fsSet fs rf.basename ⟨[], 0⟩
  let size := match fsLookup fs rf.basename with
    | some d => d.content.length
    | none => 0
  ({ rf with currentSize := size }, fs)

/-- `rotate_size`: shift `basename.(n)` to `basename.(n+1)` for
`n = max_files-2 … 0` (i.e. rename `path(j-1)` to `path(j)` for
`j = max_files-1 … 0`), then reopen a fresh base file and zero the size. -/
def rotateSize (rf : RotFile) (fs : Fs) : RotFile × Fs :=
  let fs := ((List.range rf.maxFiles.toNat).reverse).foldl
    (fun fs (j : Nat) => fsRename fs (buildFilePath rf.basename ((j : Int) - 1))
      (buildFilePath rf.basename (j : Int))) fs
  let (rf, fs) := rfOpen rf fs
  ({ rf with currentSize := 0 }, fs)

/-- `RotatingFile::write` (size mode): rotate first when the write would
cross `max_size`, then append the whole buffer to the current (base)
file. -/
def rfWrite (st : RotFile × Fs) (buf : List Nat) : RotFile × Fs :=
  let (rf, fs) := st
  let written := buf.length
  let (rf, fs) :=
    if isSizeTriggered rf ∧ isRotationSizeReached rf written then rotateSize rf fs
    else (rf, fs)
  let rf := { rf with currentSize := rf.currentSize + written }
  let fs := match fsLookup fs rf.basename with
    | some d => fsSet fs rf.basename ⟨d.content ++ buf, written⟩
    | none => fs
  (rf, fs)

/-- A fresh size-only rotating file over an empty directory. -/
def rfInit (basename : RPath) (maxSize : Nat) (maxFiles : Int) : RotFile × Fs :=
  rfOpen { basename := basename, maxSize := maxSize, maxFiles := maxFiles, currentSize := 0 } []

/-- A whole sequence of writes. -/
def rfRun (basename : RPath) (maxSize : Nat) (maxFiles : Int)
    (writes : List (List Nat)) : RotFile × Fs :=
  writes.foldl rfWrite (rfInit basename maxSize maxFiles)

/-! ### TLS output reconnect backoff (src/flowgger/output/tls_output.rs)

One `TlsWorker::run` loop iteration = one connection attempt, one session,
and one sleep once the session ends. The observable inputs of iteration
`i` are the session duration in milliseconds (`now - last_recovery`) and
the jitter `rng.gen_range(0.0, recovery_delay)` sampled when the delay
grows. `f64` is modelled as `ℚ`.
-/

/-- The three recovery parameters, in milliseconds. -/
structure TlsRecovery where
  delayInit : Nat
  delayMax : Nat
  probeTime : Nat
deriving Repr

/-- The delay update run after a session ends: reset to the initial delay
after a quiet period, otherwise grow by the sampled jitter while below
`recovery_delay_max`. -/
def recoveryUpdate (cfg : TlsRecovery) (delay elapsedMs jitter : ℚ) : ℚ :=
  if elapsedMs > (cfg.probeTime : ℚ) then (cfg.delayInit : ℚ)
  else if delay < (cfg.delayMax : ℚ) then delay + jitter
  else delay

/-- Rust `f64::round` (half away from zero) on a nonnegative value, then
`as u64`: the number of milliseconds slept. -/
def roundQ (q : ℚ) : Int := ⌊q + 1 / 2⌋

/-- The sleeps performed by the worker across a list of session ends, one
sleep per session end, starting from the given delay. -/
def tlsSleeps (cfg : TlsRecovery) : ℚ → List (ℚ × ℚ) → List Int
  | _, [] => []
  | delay, (elapsedMs, jitter) :: rest =>
    let delay' := recoveryUpdate cfg delay elapsedMs jitter
    roundQ delay' :: tlsSleeps cfg delay' rest

/-- Validity of the observed jitters: `gen_range(0.0, delay)` returns a
value in `[0, delay)`; it is only sampled in the growth branch. -/
def validJitters (cfg : TlsRecovery) : ℚ → List (ℚ × ℚ) → Bool
  | _, [] => true
  | delay, (elapsedMs, jitter) :: rest =>
    (decide (elapsedMs > (cfg.probeTime : ℚ)) || !decide (delay < (cfg.delayMax : ℚ)) ||
      (decide (0 ≤ jitter) && decide (jitter < delay))) &&
    validJitters cfg (recoveryUpdate cfg delay elapsedMs jitter) rest

/-! ### UDP input decompression (src/flowgger/input/udp_input.rs) -/

/-- Largest UDP datagram accepted (`MAX_UDP_PACKET_SIZE`). -/
def maxUdpPacketSize : Nat := 65527

/-- `MAX_COMPRESSION_RATIO`. -/
def maxCompressionRatio : Nat := 5

/-- `handle_record_maybe_compressed`, parameterised by the zlib and gzip
decompressors (external `flate2` code; `none` models a decompression
error). `read_to_end` appends the decompressor's entire output —
`Vec::with_capacity(MAX_UDP_PACKET_SIZE * MAX_COMPRESSION_RATIO)` only
pre-allocates — so the returned value is the byte record handed to
`handle_record` (and hence the decoder), whole. -/
def handleRecordMaybeCompressed (zlib gz : List Nat → Option (List Nat))
    (line : List Nat) : Except String (List Nat) :=
  if 8 ≤ line.length ∧ line.get? 0 = some 0x78 ∧
      (line.get? 1 = some 0x01 ∨ line.get? 1 = some 0x9c ∨ line.get? 1 = some 0xda) then
    match zlib line with
    | some decompressed => .ok decompressed
    | none => .error "Corrupted compressed (zlib) record"
  else if 24 ≤ line.length ∧ line.get? 0 = some 0x1f ∧ line.get? 1 = some 0x8b ∧
      line.get? 2 = some 0x08 then
    match gz line with
    | some decompressed => .ok decompressed
    | none => .error "Corrupted compressed (gzip) record"
  else .ok line

/-! ### Concrete example inputs and records used by the claim theorems -/

/-- An RFC 5424 line whose timestamp is exactly the Unix epoch. -/
def c1CexLine : Str := "<13>1 1970-01-01T00:00:00Z host app proc msgid - msg".data

/-- The record the decoder produces for `c1CexLine`: its `ts` is `0`. -/
def c1CexRecord : Record :=
  { ts := 0, hostname := "host".data, facility := some 1, severity := some 5,
    appname := some "app".data, procid := some "proc".data, msgid := some "msgid".data,
    msg := some "msg".data, full_msg := some c1CexLine, sd := none }

/-- A well-formed RFC 5424 line (PRI 23: facility 2, severity 7). -/
def c1WitLine : Str := "<23>1 1970-01-01T00:00:01Z myhost app 69 42 - hello".data

/-- The record decoded from `c1WitLine`. -/
def c1WitRecord : Record :=
  { ts := 1, hostname := "myhost".data, facility := some 2, severity := some 7,
    appname := some "app".data, procid := some "69".data, msgid := some "42".data,
    msg := some "hello".data, full_msg := some c1WitLine, sd := none }

/-- An RFC 5424 line with two consecutive spaces after the timestamp: the
hostname field is the empty string. -/
def c3CexLine : Str := "<13>1 2015-01-01T00:00:00Z  app pid mid - hello".data

/-- The record decoded from `c3CexLine`: its hostname is empty. -/
def c3CexRecord : Record :=
  { ts := 1420070400, hostname := [], facility := some 1, severity := some 5,
    appname := some "app".data, procid := some "pid".data, msgid := some "mid".data,
    msg := some "hello".data, full_msg := some c3CexLine, sd := none }

/-- A record with `severity` set but `facility` unset. -/
def c2CexRecord : Record :=
  { ts := 0, hostname := "h".data, facility := none, severity := some 2,
    appname := some "app".data, procid := some "p".data, msgid := some "m".data,
    msg := some "x".data, full_msg := none, sd := none }

/-- A record with both `facility` and `severity` set. -/
def c2WitRecord : Record :=
  { ts := 0, hostname := "h".data, facility := some 10, severity := some 2,
    appname := some "app".data, procid := some "p".data, msgid := some "m".data,
    msg := some "x".data, full_msg := none, sd := none }

/-- The line `c2WitRecord` encodes to (PRI 82 = 8*10 + 2). -/
def c2WitOut : Str := "<82>1 1970-01-01T00:00:00Z h app p m - x".data

/-- The record decoded back from `c2WitOut`. -/
def c2WitDecoded : Record :=
  { ts := 0, hostname := "h".data, facility := some 10, severity := some 2,
    appname := some "app".data, procid := some "p".data, msgid := some "m".data,
    msg := some "x".data, full_msg := some c2WitOut, sd := none }

/-- A record with out-of-range priority fields (facility 40, severity 9). -/
def c9WitRecord : Record :=
  { ts := 0, hostname := "h".data, facility := some 40, severity := some 9,
    appname := some "app".data, procid := some "p".data, msgid := some "m".data,
    msg := some "x".data, full_msg := none, sd := none }

/-- The line `c9WitRecord` encodes to: PRI 65 = 8*(40 mod 32) + (9 mod 8). -/
def c9WitOut : Str := "<65>1 1970-01-01T00:00:00Z h app p m - x".data

/-- The bytes of a decimal length token. -/
def natBytes (n : Nat) : List Nat := (natChars n).map Char.toNat
/-! ### Size-rotation invariant -/

/-- The only file names size-mode rotation ever creates: the base path and
`base.0 … base.(k-1)`. -/
def RotNames (base : RPath) (k : Nat) : List RPath :=
  base :: (List.range k).map (fun (j : Nat) => buildFilePath base (j : Int))

/-- Invariant of the size-only rotating file: the configuration fields are
fixed, every file is at most `max_size` plus its last write, every file
name is among the `k + 1` rotation names, names are unique, and the base
file exists with `current_size` tracking its length. -/
def RotInv (base : RPath) (S : Nat) (K : Int) (st : RotFile × Fs) : Prop :=
  st.1.basename = base ∧ st.1.maxSize = S ∧ st.1.maxFiles = K ∧
  (∀ e ∈ st.2, e.2.content.length ≤ S + e.2.lastWrite) ∧
  (∀ e ∈ st.2, e.1 ∈ RotNames base K.toNat) ∧
  (st.2.map Prod.fst).Nodup ∧
  (∃ d, fsLookup st.2 base = some d ∧ d.content.length = st.1.currentSize)
/-- Base path used by the C6 witness and counterexample, mirroring the
repository test `test_rotation_files_size`. -/
def c6Base : RPath := { dir := "/tmp".data, file := "test_log.log".data }

/-- Three writes driving the C6 witness through a rotation. -/
def c6Writes : List (List Nat) :=
  [[104, 101, 108, 108, 111], [119, 111, 114, 108, 100, 33, 33, 33, 33, 33, 33, 33],
    [98, 121, 101]]
/-- The first four (unconditional) inserts of `GelfEncoder::encode`. -/
def gelfBaseMap (record : Record) : List (Str × Json) :=
  jmapInsert "timestamp".data (.f64 record.ts)
    (jmapInsert "short_message".data (.str (record.msg.getD "-".data))
      (jmapInsert "host".data
        (.str (if record.hostname.isEmpty then "unknown".data else record.hostname))
        (jmapInsert "version".data (.str "1.1".data) [])))

/-- The four conditional single-field inserts of `GelfEncoder::encode`. -/
def gelfOptMap (record : Record) : List (Str × Json) :=
  let m := gelfBaseMap record
  let m := match record.severity with
    | some severity => jmapInsert "level".data (.u64 severity) m
    | none => m
  let m := match record.full_msg with
    | some fullMsg => jmapInsert "full_message".data (.str fullMsg) m
    | none => m
  let m := match record.appname with
    | some appname => jmapInsert "application_name".data (.str appname) m
    | none => m
  match record.procid with
  | some procid => jmapInsert "process_id".data (.str procid) m
  | none => m

/-- The structured-data flattening loop of `GelfEncoder::encode`. -/
def gelfSdMap (record : Record) : List (Str × Json) :=
  match record.sd with
  | some sdVec =>
    sdVec.foldl (fun m sd =>
      let m := match sd.sd_id with
        | some sdId => jmapInsert "sd_id".data (.str sdId) m
        | none => m
      sd.pairs.foldl (fun m p => jmapInsert p.1 (sdValueToJson p.2) m) m)
      (gelfOptMap record)
  | none => gelfOptMap record

/-- Record for the C4 witness and counterexample: everything optional
unset. -/
def c4WitRecord : Record :=
  { ts := 1385053862 + 3072 / 10000, hostname := "example.org".data,
    facility := none, severity := some 1, appname := none, procid := none,
    msgid := none, msg := some "A short message".data, full_msg := none,
    sd := none }

/-! ### Helper lemmas -/

/-- The encoder timestamp path evaluated once at `ts = 0`, shared by the
concrete witnesses. -/
theorem rfc5424EncodeTs_zero : rfc5424EncodeTs 0 = .ok "1970-01-01T00:00:00Z".data := by
  with_unfolding_all rfl

theorem getPart_ok {parts : List Str} {i : Nat} {e : String} {p : Str}
    (h : getPart parts i e = .ok p) : parts.get? i = some p := by
  unfold getPart at h
  split at h
  · cases h; assumption
  · cases h

theorem rustParseUInt_lt {b : Nat} {s : Str} {v : Nat}
    (h : rustParseUInt b s = some v) : v < b := by
  unfold rustParseUInt at h
  repeat' split at h
  all_goals cases h
  assumption

theorem parsePriVersion_bounds {p : Str} {pv : Pri}
    (h : parsePriVersion p = .ok pv) : pv.facility ≤ 31 ∧ pv.severity ≤ 7 := by
  unfold parsePriVersion at h
  repeat' split at h
  all_goals cases h
  dsimp only
  constructor
  · rw [Nat.shiftRight_eq_div_pow]
    have h256 := @rustParseUInt_lt 256 _ _ (by assumption)
    omega
  · exact Nat.and_le_right

/-- Structure of every successful RFC 5424 decode: the priority comes from
the first space-separated field, facility and severity come from the parsed
PRI, and the hostname is the third space-separated field, verbatim. -/
theorem rfc5424Decode_ok_struct {line : Str} {r : Record}
    (h : rfc5424Decode line = .ok r) :
    ∃ line2 p0 pv, bomParse line = .ok line2 ∧
      (rustSplitn 7 ' ' line2).get? 0 = some p0 ∧
      parsePriVersion p0 = .ok pv ∧
      r.facility = some pv.facility ∧ r.severity = some pv.severity ∧
      (rustSplitn 7 ' ' line2).get? 2 = some r.hostname := by
  unfold rfc5424Decode at h
  simp only [bind, Except.bind] at h
  repeat' split at h
  all_goals cases h
  all_goals exact ⟨_, _, _, by assumption, getPart_ok (by assumption), by assumption, rfl, rfl,
    getPart_ok (by assumption)⟩

/-! ### Claim C1 -/

/-- **C1** (amended): every input accepted by the RFC 5424 decoder yields a
record with `facility ≤ 31` and `severity ≤ 7` (both present). The `ts > 0`
part of the original claim is refuted by `rfc5424_decode_ts_zero_cex`. -/
theorem rfc5424_decode_facility_severity_bounds {line : Str} {r : Record}
    (h : rfc5424Decode line = .ok r) :
    ∃ f s, r.facility = some f ∧ r.severity = some s ∧ f ≤ 31 ∧ s ≤ 7 := by
  obtain ⟨l2, p0, pv, _, _, hpv, hf, hs, _⟩ := rfc5424Decode_ok_struct h
  obtain ⟨h31, h7⟩ := parsePriVersion_bounds hpv
  exact ⟨pv.facility, pv.severity, hf, hs, h31, h7⟩

/-- **C1** witness: the bounds theorem applied to a concrete accepted line. -/
theorem rfc5424_decode_facility_severity_bounds_witness :
    ∃ f s, c1WitRecord.facility = some f ∧ c1WitRecord.severity = some s ∧
      f ≤ 31 ∧ s ≤ 7 :=
  @rfc5424_decode_facility_severity_bounds c1WitLine c1WitRecord (by decide)

/-- **C1** counterexample: the decoder accepts a line with timestamp
`1970-01-01T00:00:00Z`, producing `ts = 0`, so `ts > 0` fails. -/
theorem rfc5424_decode_ts_zero_cex :
    rfc5424Decode c1CexLine = .ok c1CexRecord ∧ ¬ (0 < c1CexRecord.ts) :=
  ⟨by decide, by norm_num [c1CexRecord]⟩

/-! ### Claim C3 -/

/-- **C3** (amended): the RFC 5424 decoder rejects input whose hostname
field is missing (a successful decode always finds a third space-separated
field and copies it verbatim into `hostname`) — but that field, hence the
hostname, may be the empty string, as `rfc5424_decode_empty_hostname_cex`
shows. -/
theorem rfc5424_decode_hostname_field {line : Str} {r : Record}
    (h : rfc5424Decode line = .ok r) :
    ∃ line2, bomParse line = .ok line2 ∧
      (rustSplitn 7 ' ' line2).get? 2 = some r.hostname := by
  obtain ⟨l2, _, _, hb, _, _, _, _, hh⟩ := rfc5424Decode_ok_struct h
  exact ⟨l2, hb, hh⟩

/-- **C3** witness: the hostname-field theorem applied to a concrete
accepted line. -/
theorem rfc5424_decode_hostname_field_witness :
    ∃ line2, bomParse c1WitLine = .ok line2 ∧
      (rustSplitn 7 ' ' line2).get? 2 = some c1WitRecord.hostname :=
  @rfc5424_decode_hostname_field c1WitLine c1WitRecord (by decide)

/-- **C3** counterexample: an input with two consecutive spaces decodes
successfully to a record whose hostname is the empty string. -/
theorem rfc5424_decode_empty_hostname_cex :
    rfc5424Decode c3CexLine = .ok c3CexRecord ∧ c3CexRecord.hostname = [] :=
  ⟨by decide, rfl⟩

/-! ### Decimal-representation lemmas -/

theorem digitChar_toNat : ∀ d, d < 10 → (digitChar d).toNat = 48 + d := by decide

theorem digitChar_isDigit : ∀ d, d < 10 → (digitChar d).isDigit = true := by decide

theorem digitChar_digitVal : ∀ d, d < 10 → digitVal (digitChar d) = d := by decide

theorem natCharsAux_mem_digit {fuel n : Nat} {c : Char} (h : c ∈ natCharsAux fuel n) :
    48 ≤ c.toNat ∧ c.toNat ≤ 57 := by
  induction fuel generalizing n with
  | zero => simp [natCharsAux] at h
  | succ fuel ih =>
    rw [natCharsAux] at h
    split at h
    · rename_i h10
      rcases List.mem_singleton.mp h with rfl
      rw [digitChar_toNat n h10]
      omega
    · rcases List.mem_append.mp h with hm | hm
      · exact ih hm
      · rcases List.mem_singleton.mp hm with rfl
        rw [digitChar_toNat _ (Nat.mod_lt _ (by omega))]
        omega

theorem natChars_mem_digit {n : Nat} {c : Char} (h : c ∈ natChars n) :
    48 ≤ c.toNat ∧ c.toNat ≤ 57 := natCharsAux_mem_digit h

theorem natChars_ne_nil (n : Nat) : natChars n ≠ [] := by
  unfold natChars natCharsAux
  split <;> simp

theorem natChars_not_mem {n : Nat} {c : Char} (hc : c.toNat < 48 ∨ 57 < c.toNat) :
    c ∉ natChars n := by
  intro hm
  have := natChars_mem_digit hm
  omega

theorem digitsToNat_append (xs ys : Str) (acc : Nat) :
    digitsToNat (xs ++ ys) acc =
      match digitsToNat xs acc with
      | some v => digitsToNat ys v
      | none => none := by
  induction xs generalizing acc with
  | nil => simp [digitsToNat]
  | cons c cs ih =>
    simp only [List.cons_append, digitsToNat]
    split
    · exact ih _
    · rfl

theorem digitsToNat_natCharsAux {fuel n : Nat} (hfuel : n < fuel) (acc : Nat) :
    digitsToNat (natCharsAux fuel n) acc =
      some (acc * 10 ^ (natCharsAux fuel n).length + n) := by
  induction fuel generalizing n acc with
  | zero => omega
  | succ fuel ih =>
    rw [natCharsAux]
    split
    · rename_i h10
      simp [digitsToNat, digitChar_isDigit n h10, digitChar_digitVal n h10]
    · rename_i h10
      rw [digitsToNat_append]
      rw [ih (by omega) acc]
      have hlt : n % 10 < 10 := Nat.mod_lt _ (by omega)
      simp [digitsToNat, digitChar_isDigit _ hlt, digitChar_digitVal _ hlt,
        List.length_append, pow_succ]
      ring_nf
      omega

theorem digitsToNat_natChars (n acc : Nat) :
    digitsToNat (natChars n) acc = some (acc * 10 ^ (natChars n).length + n) :=
  digitsToNat_natCharsAux (Nat.lt_succ_self n) acc

theorem stripPlus_natChars (n : Nat) : stripPlus (natChars n) = natChars n := by
  unfold stripPlus
  split
  · rename_i rest heq
    exfalso
    have : '+' ∈ natChars n := by rw [heq]; exact List.mem_cons_self _ _
    have hd := natChars_mem_digit this
    have h43 : ('+' : Char).toNat = 43 := rfl
    omega
  · rfl

theorem rustParseUInt_natChars {b n : Nat} (h : n < b) :
    rustParseUInt b (natChars n) = some n := by
  unfold rustParseUInt
  rw [stripPlus_natChars]
  have h1 := digitsToNat_natChars n 0
  rcases hnc : natChars n with _ | ⟨c, cs⟩
  · exact absurd hnc (natChars_ne_nil n)
  · rw [hnc] at h1
    simp [h1, h]

theorem parseU8_natChars {n : Nat} (h : n < 256) : parseU8 (natChars n) = some n :=
  rustParseUInt_natChars h

/-! ### `splitn` lemmas -/

theorem splitnAux_append_sep {sep : Char} {xs ys : Str} {k : Nat} (acc : Str)
    (hxs : sep ∉ xs) :
    splitnAux sep (k + 1) acc (xs ++ sep :: ys) =
      (acc.reverse ++ xs) :: splitnAux sep k [] ys := by
  induction xs generalizing acc with
  | nil => simp [splitnAux]
  | cons c cs ih =>
    have hc : c ≠ sep := fun hc => hxs (hc ▸ List.mem_cons_self _ _)
    have hcs : sep ∉ cs := fun hm => hxs (List.mem_cons_of_mem _ hm)
    simp only [List.cons_append, splitnAux, if_neg hc, Nat.succ_eq_add_one,
      List.append_eq]
    rw [ih _ hcs]
    simp

theorem rustSplitn_cons_of_sep {sep : Char} {xs ys : Str} {n : Nat} (hxs : sep ∉ xs) :
    rustSplitn (n + 2) sep (xs ++ sep :: ys) = xs :: rustSplitn (n + 1) sep ys := by
  rw [show rustSplitn (n + 2) sep (xs ++ sep :: ys) =
      splitnAux sep (n + 1) [] (xs ++ sep :: ys) from rfl,
    show rustSplitn (n + 1) sep ys = splitnAux sep n [] ys from rfl]
  rw [splitnAux_append_sep [] hxs]
  simp

theorem rustSplitn_one (sep : Char) (s : Str) : rustSplitn 1 sep s = [s] := by
  unfold rustSplitn splitnAux
  cases s <;> simp [splitnAux]

/-! ### The PRI octet round-trip -/

theorem and_248_of_mul8 : ∀ m, m < 32 → (8 * m) &&& 248 = 8 * m := by decide

theorem shiftLeft3_mod_and : ∀ f : Nat, ((f <<< 3) % 256) &&& 0xF8 = 8 * (f % 32) := by
  intro f
  rw [Nat.shiftLeft_eq]
  have : f * 2 ^ 3 = 8 * f := by ring
  rw [this]
  have : (8 * f) % 256 = 8 * (f % 32) := by
    have := Nat.mul_mod_mul_left 8 f 32
    simpa using this
  rw [this]
  exact and_248_of_mul8 _ (Nat.mod_lt _ (by omega))

theorem and_seven_eq_mod (s : Nat) : s &&& 7 = s % 8 := by
  have := Nat.and_pow_two_sub_one_eq_mod s 3
  simpa using this

/-- The PRI octet the encoder computes, as the claim C9 states it. -/
theorem npri_eq {f s : Nat} :
    (((f <<< 3) % 256) &&& 0xF8) + (s &&& 0x7) = 8 * (f % 32) + s % 8 := by
  rw [shiftLeft3_mod_and, and_seven_eq_mod]

theorem npri_lt_256 {f s : Nat} : (((f <<< 3) % 256) &&& 0xF8) + (s &&& 0x7) < 256 := by
  rw [npri_eq]
  have h1 : f % 32 < 32 := Nat.mod_lt _ (by omega)
  have h2 : s % 8 < 8 := Nat.mod_lt _ (by omega)
  omega

theorem npri_and_seven {f s : Nat} :
    ((((f <<< 3) % 256) &&& 0xF8) + (s &&& 0x7)) &&& 7 = s % 8 := by
  rw [npri_eq, and_seven_eq_mod]
  omega

theorem parsePriVersion_encoded {npri : Nat} (h : npri < 256) :
    parsePriVersion ('<' :: (natChars npri ++ '>' :: ['1'])) =
      .ok ⟨npri >>> 3, npri &&& 7⟩ := by
  have hne : '>' ∉ natChars npri := natChars_not_mem (by
    have h62 : ('>' : Char).toNat = 62 := rfl
    omega)
  unfold parsePriVersion
  rw [if_pos (by simp)]
  simp only [List.drop_succ_cons, List.drop_zero]
  rw [show (2 : Nat) = 0 + 2 by rfl, rustSplitn_cons_of_sep hne, rustSplitn_one]
  simp [getPart, parseU8_natChars h]

/-- Shape of every successful encode of a record with facility and severity
both set: the output starts with the bracketed PRI, the version `1` and a
space. -/
theorem rfc5424Encode_ok_shape {r : Record} {f s : Nat} {out : Str}
    (hf : r.facility = some f) (hs : r.severity = some s)
    (h : rfc5424Encode r = .ok out) :
    ∃ t, out = '<' :: (natChars ((((f <<< 3) % 256) &&& 0xF8) + (s &&& 0x7)) ++
      '>' :: '1' :: ' ' :: t) := by
  unfold rfc5424Encode at h
  rw [hf, hs] at h
  simp only [bind, Except.bind] at h
  split at h
  · cases h
  · rename_i date hdate
    cases h
    exact ⟨date ++ ' ' :: rfc5424EncodeTail r, by simp⟩

theorem space_not_mem_priToken (npri : Nat) :
    ' ' ∉ ('<' :: (natChars npri ++ '>' :: ['1'])) := by
  intro hm
  rcases List.mem_cons.mp hm with h1 | hm
  · exact absurd h1 (by decide)
  rcases List.mem_append.mp hm with hm | hm
  · refine natChars_not_mem ?_ hm
    have h32 : (' ' : Char).toNat = 32 := rfl
    omega
  · rcases List.mem_cons.mp hm with h1 | hm
    · exact absurd h1 (by decide)
    · rcases List.mem_singleton.mp hm with h1
      exact absurd h1 (by decide)

/-- Decoding any successful encode of a record with facility and severity
both set recovers severity `s % 8` and facility-dependent wrap. -/
theorem rfc5424Decode_encode_pri {r : Record} {f s : Nat} {out : Str} {r' : Record}
    (hf : r.facility = some f) (hs : r.severity = some s)
    (henc : rfc5424Encode r = .ok out) (hdec : rfc5424Decode out = .ok r') :
    r'.severity = some (s % 8) ∧ r'.facility = some ((8 * (f % 32) + s % 8) >>> 3) := by
  obtain ⟨t, hout⟩ := rfc5424Encode_ok_shape hf hs henc
  obtain ⟨line2, p0, pv, hbom, hp0, hpv, hfac, hsev, _⟩ := rfc5424Decode_ok_struct hdec
  set npri := (((f <<< 3) % 256) &&& 0xF8) + (s &&& 0x7) with hnpri
  have hb2 : bomParse out = .ok out := by
    rw [hout]
    rfl
  have hline2 : line2 = out := by
    rw [hb2] at hbom
    exact (Except.ok.inj hbom).symm
  have hsplit : rustSplitn 7 ' ' out =
      ('<' :: (natChars npri ++ '>' :: ['1'])) :: rustSplitn 6 ' ' t := by
    rw [hout]
    have : ('<' :: (natChars npri ++ '>' :: '1' :: ' ' :: t)) =
        ('<' :: (natChars npri ++ '>' :: ['1'])) ++ ' ' :: t := by simp
    rw [this]
    exact rustSplitn_cons_of_sep (space_not_mem_priToken npri)
  have hp0' : p0 = '<' :: (natChars npri ++ '>' :: ['1']) := by
    rw [hline2, hsplit] at hp0
    simpa using hp0.symm
  rw [hp0', parsePriVersion_encoded npri_lt_256] at hpv
  have hpv' : pv = ⟨npri >>> 3, npri &&& 7⟩ := (Except.ok.inj hpv).symm
  constructor
  · rw [hsev, hpv']
    show some (npri &&& 7) = some (s % 8)
    rw [hnpri, npri_and_seven]
  · rw [hfac, hpv']
    show some (npri >>> 3) = _
    rw [hnpri, npri_eq]

/-! ### Claim C2 -/

/-- **C2** (amended): for every record with facility and severity both set
and severity within the record invariant (`s ≤ 7`), any successful
encode-then-decode round trip preserves the severity. (The original claim,
quantifying over every record with severity set, is refuted by
`rfc5424_roundtrip_severity_cex`: with facility unset the encoder emits the
default `<13>`.) -/
theorem rfc5424_roundtrip_severity {r : Record} {f s : Nat} {out : Str} {r' : Record}
    (hf : r.facility = some f) (hs : r.severity = some s) (hs7 : s ≤ 7)
    (henc : rfc5424Encode r = .ok out) (hdec : rfc5424Decode out = .ok r') :
    r'.severity = some s := by
  have := (rfc5424Decode_encode_pri hf hs henc hdec).1
  rwa [Nat.mod_eq_of_lt (by omega)] at this

/-- **C2** witness: a concrete round trip preserving severity `2`. -/
theorem rfc5424_roundtrip_severity_witness :
    rfc5424Encode c2WitRecord = .ok c2WitOut ∧
      rfc5424Decode c2WitOut = .ok c2WitDecoded ∧ c2WitDecoded.severity = some 2 := by
  have henc : rfc5424Encode c2WitRecord = .ok c2WitOut := by
    unfold rfc5424Encode
    rw [show c2WitRecord.ts = (0 : ℚ) from rfl, rfc5424EncodeTs_zero]
    decide
  have hdec : rfc5424Decode c2WitOut = .ok c2WitDecoded := by decide
  exact ⟨henc, hdec,
    @rfc5424_roundtrip_severity c2WitRecord 10 2 c2WitOut c2WitDecoded rfl rfl (by omega)
      henc hdec⟩

/-- **C2** counterexample: a record with severity `2` but no facility
encodes with the default PRI `<13>`, and decoding yields severity `5`. -/
theorem rfc5424_roundtrip_severity_cex :
    c2CexRecord.severity = some 2 ∧
      ((rfc5424Encode c2CexRecord).bind rfc5424Decode).map Record.severity =
        .ok (some 5) := by
  refine ⟨rfl, ?_⟩
  have henc : rfc5424Encode c2CexRecord = .ok "<13>1 1970-01-01T00:00:00Z h app p m - x".data := by
    unfold rfc5424Encode
    rw [show c2CexRecord.ts = (0 : ℚ) from rfl, rfc5424EncodeTs_zero]
    decide
  rw [henc]
  decide

/-! ### Claim C9 -/

/-- **C9**: the RFC 5424 encoder never fails because of out-of-range
priority fields — its only error source is the timestamp stage — and when
facility and severity are both present it emits
`PRI = ((facility << 3) & 0xF8) + (severity & 0x7)`, i.e. facility reduced
modulo 32 and severity modulo 8. -/
theorem rfc5424_encode_pri_wrap {r : Record} {f s : Nat}
    (hf : r.facility = some f) (hs : r.severity = some s) :
    ((((f <<< 3) % 256) &&& 0xF8) + (s &&& 0x7) = 8 * (f % 32) + s % 8) ∧
    (∀ e, rfc5424Encode r = .error e → rfc5424EncodeTs r.ts = .error e) ∧
    (∀ out, rfc5424Encode r = .ok out →
      ∃ t, out = '<' :: (natChars (8 * (f % 32) + s % 8) ++ '>' :: '1' :: ' ' :: t)) := by
  refine ⟨npri_eq, ?_, ?_⟩
  · intro e he
    unfold rfc5424Encode at he
    simp only [bind, Except.bind] at he
    split at he
    · rename_i he'
      cases he
      exact he'
    · cases he
  · intro out hout
    obtain ⟨t, ht⟩ := rfc5424Encode_ok_shape hf hs hout
    refine ⟨t, ?_⟩
    rw [ht, npri_eq]

/-- **C9** witness: the record with facility 40, severity 9 encodes with
PRI 65 = 8·(40 mod 32) + (9 mod 8). -/
theorem rfc5424_encode_pri_wrap_witness :
    rfc5424Encode c9WitRecord = .ok c9WitOut ∧
      ∃ t, c9WitOut = '<' :: (natChars (8 * (40 % 32) + 9 % 8) ++ '>' :: '1' :: ' ' :: t) := by
  have henc : rfc5424Encode c9WitRecord = .ok c9WitOut := by
    unfold rfc5424Encode
    rw [show c9WitRecord.ts = (0 : ℚ) from rfl, rfc5424EncodeTs_zero]
    decide
  exact ⟨henc, (@rfc5424_encode_pri_wrap c9WitRecord 40 9 rfl rfl).2.2 c9WitOut henc⟩

/-! ### Syslen splitter lemmas -/

theorem takeWhile_ne_append {tok body : List Nat} (h : ∀ b ∈ tok, b ≠ 32) :
    (tok ++ 32 :: body).takeWhile (· ≠ 32) = tok := by
  induction tok with
  | nil => simp [List.takeWhile]
  | cons b bs ih =>
    have hb : b ≠ 32 := h b (List.mem_cons_self _ _)
    simp only [List.cons_append, List.takeWhile_cons]
    rw [if_pos (by simpa using hb)]
    rw [ih (fun x hx => h x (List.mem_cons_of_mem _ hx))]

theorem utf8DecodeAux_ascii {cs : Str} (h : ∀ c ∈ cs, c.toNat < 128) :
    utf8DecodeAux (cs.map Char.toNat).length (cs.map Char.toNat) = some cs := by
  induction cs with
  | nil => rfl
  | cons c rest ih =>
    have hc : c.toNat < 128 := h c (List.mem_cons_self _ _)
    simp only [List.map_cons, List.length_cons, utf8DecodeAux]
    rw [show utf8DecodeOne (c.toNat :: rest.map Char.toNat) =
        some (c.toNat, rest.map Char.toNat) by
      unfold utf8DecodeOne
      dsimp only
      rw [if_pos hc]]
    dsimp only
    rw [ih (fun x hx => h x (List.mem_cons_of_mem _ hx))]
    simp

theorem utf8Decode_ascii {cs : Str} (h : ∀ c ∈ cs, c.toNat < 128) :
    utf8Decode (cs.map Char.toNat) = some cs := by
  unfold utf8Decode
  exact utf8DecodeAux_ascii h

theorem natBytes_ne_32 {n : Nat} : ∀ b ∈ natBytes n, b ≠ 32 := by
  intro b hb
  rcases List.mem_map.mp hb with ⟨c, hc, rfl⟩
  have := natChars_mem_digit hc
  omega

theorem natBytes_ne_nil (n : Nat) : natBytes n ≠ [] := by
  unfold natBytes
  simp [natChars_ne_nil n]

/-- `read_msglen` on a well-formed frame header: decimal digits, a space,
then the body. It returns the parsed length and the stream after the
space. -/
theorem readMsglenBody_token (tok rest : List Nat) :
    readMsglenBody (tok ++ [32]) rest =
      (if (tok ++ [32]).length ≤ 1 then .error "EOF"
       else match utf8Decode tok with
       | none => .error "Invalid or missing message length. Disable framing, maybe?"
       | some nbytesS =>
         match parseUsize nbytesS with
         | none => .error "Invalid message length. Disable framing, maybe?"
         | some nbytes => .ok (nbytes, rest)) := by
  unfold readMsglenBody
  have htake : (tok ++ [32]).take ((tok ++ [32]).length - 1) = tok := by simp
  rw [htake]

theorem readMsglen_digits {n : Nat} (body : List Nat) (hn : n < 2 ^ 64) :
    readMsglen (natBytes n ++ 32 :: body) = .ok (n, body) := by
  have h0 : 0 < (natBytes n).length := List.length_pos.mpr (natBytes_ne_nil n)
  have hdigits : ∀ c ∈ natChars n, c.toNat < 128 := by
    intro c hc
    have := natChars_mem_digit hc
    omega
  unfold readMsglen
  rw [takeWhile_ne_append natBytes_ne_32]
  rw [if_pos (by simp)]
  rw [readMsglenBody_token]
  rw [if_neg (by simp only [List.length_append, List.length_singleton]; omega)]
  rw [show utf8Decode (natBytes n) = some (natChars n) from utf8Decode_ascii hdigits]
  dsimp only
  rw [show parseUsize (natChars n) = some n from rustParseUInt_natChars hn]
  have hdrop : ((natBytes n ++ 32 :: body).drop ((natBytes n).length + 1)) = body := by
    rw [show natBytes n ++ 32 :: body = (natBytes n ++ [32]) ++ body by simp]
    rw [show (natBytes n).length + 1 = (natBytes n ++ [32]).length by simp]
    exact List.drop_left _ _
  rw [hdrop]

/-- `read_msglen` terminates the loop when the token before the space is
not a parseable decimal (invalid UTF-8 or not a number). -/
theorem readMsglen_malformed {tok rest : List Nat} (hne : tok ≠ [])
    (h32 : ∀ b ∈ tok, b ≠ 32) (hbad : (utf8Decode tok).bind parseUsize = none) :
    ∃ e, readMsglen (tok ++ 32 :: rest) = .error e ∧ e ≠ "EOF" := by
  have h0 : 0 < tok.length := List.length_pos.mpr hne
  unfold readMsglen
  rw [takeWhile_ne_append h32]
  rw [if_pos (by simp)]
  rw [readMsglenBody_token]
  rw [if_neg (by simp only [List.length_append, List.length_singleton]; omega)]
  rcases hu : utf8Decode tok with _ | cs
  · exact ⟨_, rfl, by simp⟩
  · rw [hu] at hbad
    simp only [Option.some_bind] at hbad
    dsimp only
    rw [hbad]
    exact ⟨_, rfl, by simp⟩

/-! ### Claim C5 -/

/-- **C5**: the syslen splitter, fed an ASCII decimal `n`, a space, and at
least `n` further bytes, extracts exactly one frame of exactly `n` bytes
(handing it, UTF-8 decoded, to the decoder) and continues after it; and
when the token before the space is not a valid decimal, `read_msglen`
fails with a non-EOF error and the loop terminates with no frame. -/
theorem syslen_frame_extraction :
    (∀ n body cs fuel, n < 2 ^ 64 → n ≤ body.length →
      utf8Decode (body.take n) = some cs →
      syslenRun (fuel + 1) (natBytes n ++ 32 :: body) =
        body.take n :: syslenRun fuel (body.drop n) ∧ (body.take n).length = n) ∧
    (∀ tok rest fuel, tok ≠ [] → (∀ b ∈ tok, b ≠ 32) →
      (utf8Decode tok).bind parseUsize = none →
      syslenRun fuel (tok ++ 32 :: rest) = []) := by
  constructor
  · intro n body cs fuel hn hlen hutf
    constructor
    · conv_lhs => rw [syslenRun]
      rw [readMsglen_digits body hn]
      dsimp only
      rw [show readExactBytes n body = some (body.take n, body.drop n) by
        unfold readExactBytes
        rw [if_pos hlen]]
      dsimp only
      rw [hutf]
    · simp [List.length_take]
      omega
  · intro tok rest fuel hne h32 hbad
    obtain ⟨e, he, _⟩ := readMsglen_malformed hne h32 hbad
    cases fuel with
    | zero => rfl
    | succ fuel =>
      unfold syslenRun
      rw [he]

/-- **C5** witness: `"5 hello"` yields the single frame `hello`; a
non-decimal token (`"xx "`) terminates the loop with no frame. -/
theorem syslen_frame_extraction_witness :
    (syslenRun 2 (natBytes 5 ++ 32 :: [104, 101, 108, 108, 111]) =
      [104, 101, 108, 108, 111].take 5 :: syslenRun 1 ([104, 101, 108, 108, 111].drop 5) ∧
      ([104, 101, 108, 108, 111].take 5).length = 5) ∧
    syslenRun 5 ([120, 120] ++ 32 :: [1, 2, 3]) = [] :=
  ⟨syslen_frame_extraction.1 5 [104, 101, 108, 108, 111] "hello".data 1 (by decide) (by decide)
    (by decide),
   syslen_frame_extraction.2 [120, 120] [1, 2, 3] 5 (by decide) (by decide) (by decide)⟩

/-! ### TLS recovery backoff lemmas -/

theorem recoveryUpdate_mem {cfg : TlsRecovery} {d e j : ℚ}
    (hinit : 1 ≤ cfg.delayInit) (hmax : cfg.delayInit ≤ cfg.delayMax)
    (hd1 : (cfg.delayInit : ℚ) ≤ d) (hd2 : d < 2 * cfg.delayMax)
    (hj : ¬ e > (cfg.probeTime : ℚ) → d < (cfg.delayMax : ℚ) → 0 ≤ j ∧ j < d) :
    (cfg.delayInit : ℚ) ≤ recoveryUpdate cfg d e j ∧
      recoveryUpdate cfg d e j < 2 * cfg.delayMax := by
  have hmaxq : (cfg.delayInit : ℚ) ≤ (cfg.delayMax : ℚ) := by
    exact_mod_cast hmax
  have hmax1 : (1 : ℚ) ≤ (cfg.delayMax : ℚ) := by
    have : (1 : ℚ) ≤ (cfg.delayInit : ℚ) := by exact_mod_cast hinit
    linarith
  unfold recoveryUpdate
  split
  · constructor
    · linarith
    · linarith
  · split
    · rename_i hprobe hlt
      obtain ⟨hj0, hjd⟩ := hj hprobe hlt
      constructor
      · linarith
      · linarith
    · exact ⟨hd1, hd2⟩

theorem roundQ_bounds {cfg : TlsRecovery} {d : ℚ}
    (hd1 : (cfg.delayInit : ℚ) ≤ d) (hd2 : d < 2 * cfg.delayMax) :
    (cfg.delayInit : ℤ) ≤ roundQ d ∧ roundQ d ≤ 2 * cfg.delayMax := by
  unfold roundQ
  constructor
  · apply Int.le_floor.mpr
    push_cast
    linarith
  · have hfl : (⌊((2 * cfg.delayMax : ℤ) : ℚ) + 1 / 2⌋ : ℤ) = 2 * cfg.delayMax := by
      rw [Int.floor_eq_iff]
      constructor
      · push_cast
        linarith
      · push_cast
        linarith
    calc ⌊d + 1 / 2⌋ ≤ ⌊((2 * cfg.delayMax : ℤ) : ℚ) + 1 / 2⌋ :=
          Int.floor_le_floor (by push_cast; linarith)
    _ = 2 * cfg.delayMax := hfl

theorem tlsSleeps_bounds (cfg : TlsRecovery)
    (hinit : 1 ≤ cfg.delayInit) (hmax : cfg.delayInit ≤ cfg.delayMax) :
    ∀ (trace : List (ℚ × ℚ)) (d : ℚ), (cfg.delayInit : ℚ) ≤ d → d < 2 * cfg.delayMax →
      validJitters cfg d trace = true →
      (tlsSleeps cfg d trace).length = trace.length ∧
      ∀ slp ∈ tlsSleeps cfg d trace,
        (cfg.delayInit : ℤ) ≤ slp ∧ slp ≤ 2 * cfg.delayMax := by
  intro trace
  induction trace with
  | nil =>
    intro d _ _ _
    exact ⟨rfl, by simp [tlsSleeps]⟩
  | cons step rest ih =>
    intro d hd1 hd2 hvalid
    obtain ⟨e, j⟩ := step
    unfold validJitters at hvalid
    rw [Bool.and_eq_true] at hvalid
    have hj : ¬ e > (cfg.probeTime : ℚ) → d < (cfg.delayMax : ℚ) → 0 ≤ j ∧ j < d := by
      intro h1 h2
      have hv1 := hvalid.1
      rw [Bool.or_eq_true, Bool.or_eq_true, Bool.and_eq_true, Bool.not_eq_true',
        decide_eq_true_eq, decide_eq_true_eq, decide_eq_true_eq,
        decide_eq_false_iff_not] at hv1
      rcases hv1 with (h | h) | h
      · exact absurd h h1
      · exact absurd h2 h
      · exact h
    have hmem := recoveryUpdate_mem hinit hmax hd1 hd2 hj
    have hrest := ih (recoveryUpdate cfg d e j) hmem.1 hmem.2 hvalid.2
    unfold tlsSleeps
    constructor
    · simp [hrest.1]
    · intro slp hslp
      rcases List.mem_cons.mp hslp with rfl | hm
      · exact roundQ_bounds hmem.1 hmem.2
      · exact hrest.2 slp hm

/-! ### Claim C7 -/

/-- **C7** (amended): the TLS worker performs exactly one reconnect attempt
per ended session (one sleep per session end); each sleep lies in
`[recovery_delay_init, 2·recovery_delay_max]` milliseconds — the jitter is
added after the `delay < max` test, so the delay may exceed
`recovery_delay_max` by up to a factor of two, refuting the claimed
`[init, max]` bound (see `tls_recovery_backoff_cex`) — and the delay resets
to `recovery_delay_init` whenever more than `recovery_probe_time` has
elapsed since `last_recovery`. -/
theorem tls_recovery_backoff (cfg : TlsRecovery) (trace : List (ℚ × ℚ))
    (hinit : 1 ≤ cfg.delayInit) (hmax : cfg.delayInit ≤ cfg.delayMax)
    (hvalid : validJitters cfg cfg.delayInit trace = true) :
    (tlsSleeps cfg cfg.delayInit trace).length = trace.length ∧
    (∀ slp ∈ tlsSleeps cfg cfg.delayInit trace,
      (cfg.delayInit : ℤ) ≤ slp ∧ slp ≤ 2 * cfg.delayMax) ∧
    (∀ d e j, e > (cfg.probeTime : ℚ) → recoveryUpdate cfg d e j = cfg.delayInit) := by
  have hd2 : (cfg.delayInit : ℚ) < 2 * cfg.delayMax := by
    have h1 : (1 : ℚ) ≤ (cfg.delayInit : ℚ) := by exact_mod_cast hinit
    have h2 : (cfg.delayInit : ℚ) ≤ (cfg.delayMax : ℚ) := by exact_mod_cast hmax
    linarith
  obtain ⟨hlen, hmem⟩ := tlsSleeps_bounds cfg hinit hmax trace cfg.delayInit le_rfl hd2 hvalid
  refine ⟨hlen, hmem, ?_⟩
  intro d e j he
  unfold recoveryUpdate
  rw [if_pos he]

/-- **C7** witness: a session ending after the probe time resets the delay
to 100 ms; the next quick failure grows it by the sampled jitter. -/
theorem tls_recovery_backoff_witness :
    (tlsSleeps ⟨100, 500, 1000⟩ 100 [((2000 : ℚ), (0 : ℚ)), (0, 50)]).length =
      [((2000 : ℚ), (0 : ℚ)), (0, 50)].length ∧
    (∀ slp ∈ tlsSleeps ⟨100, 500, 1000⟩ 100 [((2000 : ℚ), (0 : ℚ)), (0, 50)],
      ((100 : Nat) : ℤ) ≤ slp ∧ slp ≤ 2 * (500 : Nat)) ∧
    (∀ d e j, e > ((1000 : Nat) : ℚ) →
      recoveryUpdate ⟨100, 500, 1000⟩ d e j = (100 : Nat)) :=
  tls_recovery_backoff ⟨100, 500, 1000⟩ [((2000 : ℚ), (0 : ℚ)), (0, 50)]
    (by decide) (by decide) (by decide)

/-- **C7** counterexample: with `init = 1`, `max = 4`, three rapid failures
with jitters just below the current delay drive the delay to 6.859, so the
worker sleeps 7 ms — beyond `recovery_delay_max = 4`. -/
theorem tls_recovery_backoff_cex :
    validJitters ⟨1, 4, 100⟩ 1 [((0 : ℚ), 9 / 10), (0, 171 / 100), (0, 3249 / 1000)] = true ∧
    tlsSleeps ⟨1, 4, 100⟩ 1 [((0 : ℚ), 9 / 10), (0, 171 / 100), (0, 3249 / 1000)] = [2, 4, 7] ∧
    ¬ ((7 : ℤ) ≤ 4) :=
  ⟨by decide, by decide, by decide⟩

/-! ### Claim C8 -/

/-- **C8**: on a datagram carrying the zlib magic, the input hands the
decompressor's entire output to the decoder — `MAX_COMPRESSION_RATIO` only
sizes the initial `Vec` capacity, and `read_to_end` imposes no bound, so
the claimed 5× cap on the expansion ratio is not enforced anywhere. -/
theorem udp_decompress_no_cap {zlib gz : List Nat → Option (List Nat)}
    {line out : List Nat}
    (hlen : 8 ≤ line.length) (h0 : line.get? 0 = some 0x78)
    (h1 : line.get? 1 = some 0x01 ∨ line.get? 1 = some 0x9c ∨ line.get? 1 = some 0xda)
    (hz : zlib line = some out) :
    handleRecordMaybeCompressed zlib gz line = .ok out := by
  unfold handleRecordMaybeCompressed
  rw [if_pos ⟨hlen, h0, h1⟩]
  rw [hz]

/-- **C8** witness: a zlib-magic datagram whose decompressor output has
`5 × 65527 + 1` bytes is handed whole to the decoder, exceeding the claimed
`MAX_COMPRESSION_RATIO × MAX_UDP_PACKET_SIZE` cap. -/
theorem udp_decompress_no_cap_witness :
    handleRecordMaybeCompressed
      (fun _ => some (List.replicate (maxCompressionRatio * maxUdpPacketSize + 1) 97))
      (fun _ => none) [0x78, 0x9c, 0, 0, 0, 0, 0, 0] =
      .ok (List.replicate (maxCompressionRatio * maxUdpPacketSize + 1) 97) ∧
    (List.replicate (maxCompressionRatio * maxUdpPacketSize + 1) 97).length >
      maxCompressionRatio * maxUdpPacketSize :=
  ⟨udp_decompress_no_cap (by decide) (by decide) (by decide) rfl,
   by simp⟩

/-! ### Rotated file-name lemmas -/

theorem findIdxDot_append {pre : Str} (hpre : '.' ∉ pre) (suf : Str) :
    List.findIdx? (· = '.') (pre ++ '.' :: suf) = some pre.length := by
  induction pre with
  | nil => simp [List.findIdx?_cons]
  | cons c cs ih =>
    have hc : ¬(c = '.') := fun h => hpre (h ▸ List.mem_cons_self _ _)
    have hcs : '.' ∉ cs := fun hm => hpre (List.mem_cons_of_mem _ hm)
    simp only [List.cons_append, List.findIdx?_cons]
    rw [if_neg (by simpa using hc)]
    rw [List.findIdx?_succ, ih hcs]
    simp

theorem lastDotIdx_append {stem ext : Str} (hstem : stem ≠ []) (hext : '.' ∉ ext) :
    lastDotIdx (stem ++ '.' :: ext) = some stem.length := by
  unfold lastDotIdx
  have hrev : (stem ++ '.' :: ext).reverse = ext.reverse ++ '.' :: stem.reverse := by
    simp
  rw [hrev, findIdxDot_append (by simpa using hext)]
  dsimp only
  have hlen : (stem ++ '.' :: ext).length - 1 - ext.reverse.length = stem.length := by
    simp
  rw [hlen]
  rw [if_neg (by simpa using hstem)]

theorem rustSetExtension_append {stem ext : Str} (hstem : stem ≠ []) (hext : '.' ∉ ext)
    (e' : Str) : rustSetExtension (stem ++ '.' :: ext) e' = stem ++ '.' :: e' := by
  unfold rustSetExtension rustFileStem
  rw [lastDotIdx_append hstem hext]
  simp [List.take_left]

/-! ### Claim C10 -/

/-- **C10**: in size-only rotation, `build_file_path` produces rotated
names by replacing the base name's extension with the file number
(`set_extension`), not by appending it: for a base `dir/stem.ext` the
rotated file `n ≥ 0` is named `dir/stem.n`, while the negative index used
for the currently written file returns the base path unchanged. -/
theorem build_file_path_replaces_extension {dir stem ext : Str} {n : Int}
    (hstem : stem ≠ []) (hext : '.' ∉ ext) (hn : 0 ≤ n) :
    buildFilePath ⟨dir, stem ++ '.' :: ext⟩ n = ⟨dir, stem ++ '.' :: intChars n⟩ ∧
    buildFilePath ⟨dir, stem ++ '.' :: ext⟩ (-1) = ⟨dir, stem ++ '.' :: ext⟩ := by
  constructor
  · unfold buildFilePath
    rw [if_neg (by omega)]
    simp only [RPath.mk.injEq, true_and]
    exact rustSetExtension_append hstem hext _
  · rfl

/-- **C10** witness: base `dir/app.log` rotates to `dir/app.0` while the
current file keeps the name `dir/app.log`. -/
theorem build_file_path_replaces_extension_witness :
    buildFilePath ⟨"dir".data, "app".data ++ '.' :: "log".data⟩ 0 =
      ⟨"dir".data, "app".data ++ '.' :: intChars 0⟩ ∧
    buildFilePath ⟨"dir".data, "app".data ++ '.' :: "log".data⟩ (-1) =
      ⟨"dir".data, "app".data ++ '.' :: "log".data⟩ :=
  @build_file_path_replaces_extension "dir".data "app".data "log".data 0
    (by decide) (by decide) (by decide)

/-! ### File-system model lemmas -/

theorem filter_ne_cond_true {e : RPath × FileData} {p : RPath} (h : ¬ e.1 = p) :
    (fun e : RPath × FileData => decide (e.1 ≠ p)) e = true := by
  simpa using h

theorem filter_ne_cond_false {e : RPath × FileData} {p : RPath} (h : e.1 = p) :
    ¬ (fun e : RPath × FileData => decide (e.1 ≠ p)) e = true := by
  simpa using h

theorem fsLookup_filter_self (fs : Fs) (p : RPath) :
    fsLookup (fs.filter (fun e => e.1 ≠ p)) p = none := by
  induction fs with
  | nil => rfl
  | cons e rest ih =>
    rw [List.filter_cons]
    by_cases he : e.1 = p
    · rw [if_neg (filter_ne_cond_false he)]
      exact ih
    · rw [if_pos (filter_ne_cond_true he)]
      rw [fsLookup, if_neg he]
      exact ih

theorem fsLookup_filter_ne {q : RPath} (fs : Fs) (p : RPath) (h : q ≠ p) :
    fsLookup (fs.filter (fun e => e.1 ≠ p)) q = fsLookup fs q := by
  induction fs with
  | nil => rfl
  | cons e rest ih =>
    rw [List.filter_cons]
    by_cases he : e.1 = p
    · rw [if_neg (filter_ne_cond_false he)]
      have heq : ¬ e.1 = q := by
        rw [he]
        exact fun hc => h hc.symm
      rw [show fsLookup (e :: rest) q = fsLookup rest q by rw [fsLookup, if_neg heq]]
      exact ih
    · rw [if_pos (filter_ne_cond_true he)]
      by_cases heq : e.1 = q
      · rw [fsLookup, if_pos heq, fsLookup, if_pos heq]
      · rw [fsLookup, if_neg heq, fsLookup, if_neg heq]
        exact ih

theorem fsLookup_append_nomatch {fs : Fs} {p : RPath} (h : fsLookup fs p = none)
    (tail : Fs) : fsLookup (fs ++ tail) p = fsLookup tail p := by
  induction fs with
  | nil => rfl
  | cons e rest ih =>
    rw [fsLookup] at h
    split at h
    · cases h
    · rename_i he
      rw [List.cons_append, fsLookup, if_neg he]
      exact ih h

theorem fsLookup_set_self (fs : Fs) (p : RPath) (d : FileData) :
    fsLookup (fsSet fs p d) p = some d := by
  unfold fsSet
  rw [fsLookup_append_nomatch (fsLookup_filter_self fs p)]
  rw [fsLookup, if_pos rfl]

theorem fsLookup_set_ne {q : RPath} (fs : Fs) (p : RPath) (d : FileData) (h : q ≠ p) :
    fsLookup (fsSet fs p d) q = fsLookup fs q := by
  unfold fsSet
  rw [show fsLookup (fs.filter (fun e => e.1 ≠ p) ++ [(p, d)]) q =
      fsLookup (fs.filter (fun e => e.1 ≠ p)) q from ?_]
  · exact fsLookup_filter_ne fs p h
  · induction fs with
    | nil =>
      rw [List.filter_nil, List.nil_append, fsLookup, fsLookup,
        if_neg (fun hc : (p, d).1 = q => h hc.symm)]
      rfl
    | cons e rest ih =>
      rw [List.filter_cons]
      by_cases he : e.1 = p
      · rw [if_neg (filter_ne_cond_false he)]
        exact ih
      · rw [if_pos (filter_ne_cond_true he)]
        by_cases heq : e.1 = q
        · rw [List.cons_append, fsLookup, if_pos heq, fsLookup, if_pos heq]
        · rw [List.cons_append, fsLookup, if_neg heq, fsLookup, if_neg heq]
          exact ih

theorem mem_fsSet {e : RPath × FileData} {fs : Fs} {p : RPath} {d : FileData}
    (h : e ∈ fsSet fs p d) : e ∈ fs ∨ e = (p, d) := by
  unfold fsSet at h
  rcases List.mem_append.mp h with hm | hm
  · exact Or.inl (List.mem_of_mem_filter hm)
  · exact Or.inr (List.mem_singleton.mp hm)

theorem nodup_fsSet {fs : Fs} {p : RPath} {d : FileData}
    (h : (fs.map Prod.fst).Nodup) : ((fsSet fs p d).map Prod.fst).Nodup := by
  unfold fsSet
  rw [List.map_append, List.nodup_append]
  refine ⟨h.sublist ((List.filter_sublist fs).map Prod.fst), by simp, ?_⟩
  intro x hx hy
  rcases List.mem_map.mp hx with ⟨e, he, rfl⟩
  have hne := (List.mem_filter.mp he).2
  simp only [decide_eq_true_eq] at hne
  simp only [List.map_cons, List.map_nil, List.mem_singleton] at hy
  exact hne hy

theorem mem_fsRename {e : RPath × FileData} {fs : Fs} {src dest : RPath}
    (h : e ∈ fsRename fs src dest) :
    e ∈ fs ∨ ∃ d0, fsLookup fs src = some d0 ∧ e = (dest, d0) := by
  unfold fsRename at h
  split at h
  · exact Or.inl h
  · rename_i d0 hd0
    rcases mem_fsSet h with hm | hm
    · exact Or.inl (List.mem_of_mem_filter hm)
    · exact Or.inr ⟨d0, hd0, hm⟩

theorem nodup_fsRename {fs : Fs} {src dest : RPath}
    (h : (fs.map Prod.fst).Nodup) : ((fsRename fs src dest).map Prod.fst).Nodup := by
  unfold fsRename
  split
  · exact h
  · exact nodup_fsSet (h.sublist ((List.filter_sublist fs).map Prod.fst))

theorem fsLookup_rename_src {fs : Fs} {src dest : RPath} (hne : src ≠ dest) :
    fsLookup (fsRename fs src dest) src = none := by
  unfold fsRename
  split
  · assumption
  · unfold fsSet
    have hnone : fsLookup ((fs.filter (fun e => e.1 ≠ src)).filter
        (fun e => e.1 ≠ dest)) src = none := by
      rw [fsLookup_filter_ne _ _ hne]
      exact fsLookup_filter_self fs src
    rw [fsLookup_append_nomatch hnone]
    rw [fsLookup, if_neg (fun hc : dest = src => hne hc.symm)]
    rfl

theorem fsLookup_rename_other {fs : Fs} {src dest p : RPath}
    (h1 : p ≠ src) (h2 : p ≠ dest) :
    fsLookup (fsRename fs src dest) p = fsLookup fs p := by
  unfold fsRename
  split
  · rfl
  · rw [fsLookup_set_ne _ _ _ h2]
    exact fsLookup_filter_ne fs src h1

theorem fsLookup_some_mem {fs : Fs} {p : RPath} {d : FileData}
    (h : fsLookup fs p = some d) : (p, d) ∈ fs := by
  induction fs with
  | nil => cases h
  | cons e rest ih =>
    rw [fsLookup] at h
    split at h
    · rename_i he
      cases h
      rcases e with ⟨q, d'⟩
      cases he
      exact List.mem_cons_self _ _
    · exact List.mem_cons_of_mem _ (ih h)

theorem buildFilePath_mem_rotNames {base : RPath} {k j : Nat} (hj : j < k) :
    buildFilePath base (j : Int) ∈ RotNames base k :=
  List.mem_cons_of_mem _
    (List.mem_map_of_mem (fun (j : Nat) => buildFilePath base (j : Int))
      (List.mem_range.mpr hj))

theorem fold_rename_inv (base : RPath) (S : Nat) (k : Nat)
    (hbase : ∀ j : Nat, j < k → buildFilePath base (j : Int) ≠ base) :
    ∀ (js : List Nat) (fs : Fs), (∀ j ∈ js, 1 ≤ j ∧ j < k) →
    (∀ e ∈ fs, e.2.content.length ≤ S + e.2.lastWrite) →
    (∀ e ∈ fs, e.1 ∈ RotNames base k) →
    (fs.map Prod.fst).Nodup →
    (∀ e ∈ js.foldl (fun fs (j : Nat) => fsRename fs (buildFilePath base ((j : Int) - 1))
        (buildFilePath base (j : Int))) fs, e.2.content.length ≤ S + e.2.lastWrite) ∧
    (∀ e ∈ js.foldl (fun fs (j : Nat) => fsRename fs (buildFilePath base ((j : Int) - 1))
        (buildFilePath base (j : Int))) fs, e.1 ∈ RotNames base k) ∧
    ((js.foldl (fun fs (j : Nat) => fsRename fs (buildFilePath base ((j : Int) - 1))
        (buildFilePath base (j : Int))) fs).map Prod.fst).Nodup ∧
    fsLookup (js.foldl (fun fs (j : Nat) => fsRename fs (buildFilePath base ((j : Int) - 1))
        (buildFilePath base (j : Int))) fs) base = fsLookup fs base := by
  intro js
  induction js with
  | nil => exact fun fs _ h1 h2 h3 => ⟨h1, h2, h3, rfl⟩
  | cons j js ih =>
    intro fs hjs h1 h2 h3
    obtain ⟨hj1, hjk⟩ := hjs j (List.mem_cons_self _ _)
    have hcast : (j : Int) - 1 = ((j - 1 : Nat) : Int) := by omega
    have hsrc : buildFilePath base ((j : Int) - 1) ≠ base := by
      rw [hcast]
      exact hbase (j - 1) (by omega)
    have hdest : buildFilePath base ((j : Int)) ≠ base := hbase j hjk
    set fs1 := fsRename fs (buildFilePath base ((j : Int) - 1))
      (buildFilePath base (j : Int)) with hfs1
    have h1' : ∀ e ∈ fs1, e.2.content.length ≤ S + e.2.lastWrite := by
      intro e he
      rcases mem_fsRename he with hm | ⟨d0, hd0, rfl⟩
      · exact h1 e hm
      · exact h1 (buildFilePath base ((j : Int) - 1), d0) (fsLookup_some_mem hd0)
    have h2' : ∀ e ∈ fs1, e.1 ∈ RotNames base k := by
      intro e he
      rcases mem_fsRename he with hm | ⟨d0, hd0, rfl⟩
      · exact h2 e hm
      · exact buildFilePath_mem_rotNames hjk
    have h3' : (fs1.map Prod.fst).Nodup := nodup_fsRename h3
    have hrest := ih fs1 (fun x hx => hjs x (List.mem_cons_of_mem _ hx)) h1' h2' h3'
    refine ⟨?_, ?_, ?_, ?_⟩
    · simpa using hrest.1
    · simpa using hrest.2.1
    · simpa using hrest.2.2.1
    · rw [List.foldl_cons, ← hfs1]
      rw [hrest.2.2.2]
      exact fsLookup_rename_other (Ne.symm hsrc) (Ne.symm hdest)

theorem range_reverse_split {k : Nat} (hk : 1 ≤ k) :
    (List.range k).reverse = ((List.range (k - 1)).map (· + 1)).reverse ++ [0] := by
  obtain ⟨m, rfl⟩ : ∃ m, k = m + 1 := ⟨k - 1, by omega⟩
  rw [List.range_succ_eq_map]
  simp

theorem rotateSize_inv {rf : RotFile} {fs : Fs}
    (hK : 1 ≤ rf.maxFiles)
    (hbase : ∀ j : Nat, j < rf.maxFiles.toNat →
      buildFilePath rf.basename (j : Int) ≠ rf.basename)
    (h1 : ∀ e ∈ fs, e.2.content.length ≤ rf.maxSize + e.2.lastWrite)
    (h2 : ∀ e ∈ fs, e.1 ∈ RotNames rf.basename rf.maxFiles.toNat)
    (h3 : (fs.map Prod.fst).Nodup)
    (h4 : ∃ d, fsLookup fs rf.basename = some d) :
    RotInv rf.basename rf.maxSize rf.maxFiles (rotateSize rf fs) ∧
    (rotateSize rf fs).1.currentSize = 0 := by
  obtain ⟨d, hd⟩ := h4
  have hk1 : 1 ≤ rf.maxFiles.toNat := by omega
  have hjs : ∀ j ∈ ((List.range (rf.maxFiles.toNat - 1)).map (· + 1)).reverse,
      1 ≤ j ∧ j < rf.maxFiles.toNat := by
    intro j hj
    rw [List.mem_reverse] at hj
    rcases List.mem_map.mp hj with ⟨a, ha, rfl⟩
    have := List.mem_range.mp ha
    omega
  have hfold := fold_rename_inv rf.basename rf.maxSize rf.maxFiles.toNat hbase
    (((List.range (rf.maxFiles.toNat - 1)).map (· + 1)).reverse) fs hjs h1 h2 h3
  set fs0 := (((List.range (rf.maxFiles.toNat - 1)).map (· + 1)).reverse).foldl
    (fun fs (j : Nat) => fsRename fs (buildFilePath rf.basename ((j : Int) - 1))
      (buildFilePath rf.basename (j : Int))) fs with hfs0
  obtain ⟨hc0, hn0, hnd0, hlk0⟩ := hfold
  have hne0 : buildFilePath rf.basename ((0 : Nat) : Int) ≠ rf.basename :=
    hbase 0 (by omega)
  have hneg : buildFilePath rf.basename (((0 : Nat) : Int) - 1) = rf.basename := by
    unfold buildFilePath
    rw [if_pos (by decide)]
  have hfull : ((List.range rf.maxFiles.toNat).reverse).foldl
      (fun fs (j : Nat) => fsRename fs (buildFilePath rf.basename ((j : Int) - 1))
        (buildFilePath rf.basename (j : Int))) fs
      = fsRename fs0 rf.basename (buildFilePath rf.basename ((0 : Nat) : Int)) := by
    rw [range_reverse_split hk1, List.foldl_append, List.foldl_cons, List.foldl_nil]
    exact congrArg
      (fun p => fsRename fs0 p (buildFilePath rf.basename ((0 : Nat) : Int))) hneg
  set fs1 := fsRename fs0 rf.basename (buildFilePath rf.basename ((0 : Nat) : Int))
    with hfs1
  have hlkd : fsLookup fs0 rf.basename = some d := by rw [hlk0]; exact hd
  have hnone : fsLookup fs1 rf.basename = none := fsLookup_rename_src (Ne.symm hne0)
  have hc1 : ∀ e ∈ fs1, e.2.content.length ≤ rf.maxSize + e.2.lastWrite := by
    intro e he
    rcases mem_fsRename he with hm | ⟨d0, hd0, rfl⟩
    · exact hc0 e hm
    · exact hc0 (rf.basename, d0) (fsLookup_some_mem hd0)
  have hn1 : ∀ e ∈ fs1, e.1 ∈ RotNames rf.basename rf.maxFiles.toNat := by
    intro e he
    rcases mem_fsRename he with hm | ⟨d0, hd0, rfl⟩
    · exact hn0 e hm
    · exact buildFilePath_mem_rotNames (by omega)
  have hnd1 : (fs1.map Prod.fst).Nodup := nodup_fsRename hnd0
  have hopen : rfOpen rf fs1 = ({ rf with currentSize := 0 }, fsSet fs1 rf.basename ⟨[], 0⟩) := by
    simp only [rfOpen, hnone, fsLookup_set_self, List.length_nil]
  have hrot : rotateSize rf fs = ({ rf with currentSize := 0 }, fsSet fs1 rf.basename ⟨[], 0⟩) := by
    simp only [rotateSize, hfull, hopen]
  rw [hrot]
  refine ⟨⟨rfl, rfl, rfl, ?_, ?_, ?_, ⟨⟨[], 0⟩, fsLookup_set_self _ _ _, rfl⟩⟩, rfl⟩
  · intro e he
    rcases mem_fsSet he with hm | rfl
    · exact hc1 e hm
    · exact Nat.zero_le _
  · intro e he
    rcases mem_fsSet he with hm | rfl
    · exact hn1 e hm
    · exact List.mem_cons_self _ _
  · exact nodup_fsSet hnd1

theorem rfWrite_inv {base : RPath} {S : Nat} {K : Int} {rf : RotFile} {fs : Fs}
    {buf : List Nat}
    (hS : 0 < S) (hK : 1 ≤ K)
    (hbase : ∀ j : Nat, j < K.toNat → buildFilePath base (j : Int) ≠ base)
    (hinv : RotInv base S K (rf, fs)) : RotInv base S K (rfWrite (rf, fs) buf) := by
  have hb' : rf.basename = base := hinv.1
  have hSf' : rf.maxSize = S := hinv.2.1
  have hKf' : rf.maxFiles = K := hinv.2.2.1
  have h1 : ∀ e ∈ fs, e.2.content.length ≤ S + e.2.lastWrite := hinv.2.2.2.1
  have h2 : ∀ e ∈ fs, e.1 ∈ RotNames base K.toNat := hinv.2.2.2.2.1
  have h3 : (fs.map Prod.fst).Nodup := hinv.2.2.2.2.2.1
  obtain ⟨d, hd0, hdlen0⟩ := hinv.2.2.2.2.2.2
  have hd : fsLookup fs base = some d := hd0
  have hdlen : d.content.length = rf.currentSize := hdlen0
  clear hinv hd0 hdlen0
  subst hb' hSf' hKf'
  by_cases hcond : isSizeTriggered rf = true ∧ isRotationSizeReached rf buf.length = true
  · rcases hrs : rotateSize rf fs with ⟨rf2, fs2⟩
    have hrots := rotateSize_inv hK hbase h1 h2 h3 ⟨d, hd⟩
    rw [hrs] at hrots
    obtain ⟨⟨hb2, hS2, hK2, h1', h2', h3', d2, hd2, hdlen2⟩, hcur2⟩ := hrots
    have hd2' : fsLookup fs2 rf2.basename = some d2 := by rw [hb2]; exact hd2
    have hred : rfWrite (rf, fs) buf =
        ({ rf2 with currentSize := rf2.currentSize + buf.length },
          fsSet fs2 rf2.basename ⟨d2.content ++ buf, buf.length⟩) := by
      simp only [rfWrite]
      rw [if_pos hcond, hrs]
      simp only [hd2']
    rw [hred]
    refine ⟨hb2, hS2, hK2, ?_, ?_, nodup_fsSet h3',
      ⟨⟨d2.content ++ buf, buf.length⟩, ?_, ?_⟩⟩
    · intro e he
      rcases mem_fsSet he with hm | rfl
      · exact h1' e hm
      · show (d2.content ++ buf).length ≤ rf.maxSize + buf.length
        rw [List.length_append, hdlen2, hcur2]
        omega
    · intro e he
      rcases mem_fsSet he with hm | rfl
      · exact h2' e hm
      · show rf2.basename ∈ RotNames rf.basename rf.maxFiles.toNat
        rw [hb2]
        exact List.mem_cons_self _ _
    · rw [← hb2]
      exact fsLookup_set_self _ _ _
    · show (d2.content ++ buf).length = rf2.currentSize + buf.length
      rw [List.length_append, hdlen2]
  · have hcur : rf.currentSize + buf.length ≤ rf.maxSize := by
      by_contra hlt
      apply hcond
      constructor
      · simp only [isSizeTriggered, decide_eq_true_eq]
        exact hS
      · simp only [isRotationSizeReached, decide_eq_true_eq]
        exact ⟨hS, by omega⟩
    have hred : rfWrite (rf, fs) buf =
        ({ rf with currentSize := rf.currentSize + buf.length },
          fsSet fs rf.basename ⟨d.content ++ buf, buf.length⟩) := by
      simp only [rfWrite]
      rw [if_neg hcond]
      simp only [hd]
    rw [hred]
    refine ⟨rfl, rfl, rfl, ?_, ?_, nodup_fsSet h3,
      ⟨⟨d.content ++ buf, buf.length⟩, fsLookup_set_self _ _ _, ?_⟩⟩
    · intro e he
      rcases mem_fsSet he with hm | rfl
      · exact h1 e hm
      · show (d.content ++ buf).length ≤ rf.maxSize + buf.length
        rw [List.length_append, hdlen]
        omega
    · intro e he
      rcases mem_fsSet he with hm | rfl
      · exact h2 e hm
      · exact List.mem_cons_self _ _
    · show (d.content ++ buf).length = rf.currentSize + buf.length
      rw [List.length_append, hdlen]

theorem rfInit_inv (base : RPath) (S : Nat) (K : Int) :
    RotInv base S K (rfInit base S K) := by
  have hinit : rfInit base S K =
      ({ basename := base, maxSize := S, maxFiles := K, currentSize := 0 },
        fsSet [] base ⟨[], 0⟩) := by
    simp only [rfInit, rfOpen, fsLookup, fsLookup_set_self, ite_true, List.length_nil]
  rw [hinit]
  refine ⟨rfl, rfl, rfl, ?_, ?_, nodup_fsSet List.nodup_nil,
    ⟨⟨[], 0⟩, fsLookup_set_self _ _ _, rfl⟩⟩
  · intro e he
    rcases mem_fsSet he with hm | rfl
    · cases hm
    · exact Nat.zero_le _
  · intro e he
    rcases mem_fsSet he with hm | rfl
    · cases hm
    · exact List.mem_cons_self _ _

theorem rfRun_inv {base : RPath} {S : Nat} {K : Int}
    (hS : 0 < S) (hK : 1 ≤ K)
    (hbase : ∀ j : Nat, j < K.toNat → buildFilePath base (j : Int) ≠ base)
    (writes : List (List Nat)) :
    RotInv base S K (rfRun base S K writes) := by
  unfold rfRun
  have hgen : ∀ (st : RotFile × Fs), RotInv base S K st →
      RotInv base S K (writes.foldl rfWrite st) := by
    induction writes with
    | nil => exact fun st h => h
    | cons w ws ih =>
      intro st h
      rw [List.foldl_cons]
      exact ih _ (rfWrite_inv hS hK hbase h)
  exact hgen _ (rfInit_inv base S K)

/-- C6: for the size-only rotating file with `max_size = S ≥ 1` and
`max_files = K ≥ 1` (and a base name none of the rotated names collides
with), after any sequence of writes every existing file's size is at most
`S` plus the size of the last single write to it, and at most `K + 1`
files exist, all named `base, base.0, …, base.(K-1)`. The claim as stated
also fails for `K = 0`: rotation then renames nothing yet still resets
`current_size`, so the base file grows past the bound (see the
counterexample). -/
theorem rotating_file_size_bounds (base : RPath) (S : Nat) (K : Int)
    (writes : List (List Nat)) (hS : 0 < S) (hK : 1 ≤ K)
    (hbase : ∀ j : Nat, j < K.toNat → buildFilePath base (j : Int) ≠ base) :
    (∀ e ∈ (rfRun base S K writes).2, e.2.content.length ≤ S + e.2.lastWrite) ∧
    (∀ e ∈ (rfRun base S K writes).2, e.1 ∈ RotNames base K.toNat) ∧
    (rfRun base S K writes).2.length ≤ K.toNat + 1 := by
  obtain ⟨-, -, -, h1, h2, h3, -⟩ := rfRun_inv hS hK hbase writes
  refine ⟨h1, h2, ?_⟩
  have hsub : ((rfRun base S K writes).2.map Prod.fst) ⊆ RotNames base K.toNat := by
    intro x hx
    rcases List.mem_map.mp hx with ⟨e, he, rfl⟩
    exact h2 e he
  have hcard : ((rfRun base S K writes).2.map Prod.fst).length ≤
      (RotNames base K.toNat).length := by
    calc ((rfRun base S K writes).2.map Prod.fst).length
        = ((rfRun base S K writes).2.map Prod.fst).toFinset.card :=
          (List.toFinset_card_of_nodup h3).symm
      _ ≤ (RotNames base K.toNat).toFinset.card :=
          Finset.card_le_card
            (fun x hx => List.mem_toFinset.mpr (hsub (List.mem_toFinset.mp hx)))
      _ ≤ (RotNames base K.toNat).length := (RotNames base K.toNat).toFinset_card_le
  rw [List.length_map] at hcard
  calc (rfRun base S K writes).2.length ≤ (RotNames base K.toNat).length := hcard
    _ = K.toNat + 1 := by simp [RotNames]

/-- Witness for C6 at the repository test configuration: base
`/tmp/test_log.log`, `max_size = 16`, `max_files = 2`, three writes. -/
theorem rotating_file_size_bounds_witness :
    (∀ e ∈ (rfRun c6Base 16 2 c6Writes).2, e.2.content.length ≤ 16 + e.2.lastWrite) ∧
    (∀ e ∈ (rfRun c6Base 16 2 c6Writes).2, e.1 ∈ RotNames c6Base (2 : Int).toNat) ∧
    (rfRun c6Base 16 2 c6Writes).2.length ≤ (2 : Int).toNat + 1 :=
  rotating_file_size_bounds c6Base 16 2 c6Writes (by decide) (by decide) (by decide)

/-- Counterexample to C6 as stated: with `max_files = 0` (and
`max_size = 1`) the rotation loop renames nothing but still zeroes
`current_size`, so after the writes `"ab"`, `"cd"` the base file holds 4
bytes although `max_size + last write = 1 + 2 = 3`. -/
theorem rotating_file_size_bounds_cex :
    ∃ e ∈ (rfRun c6Base 1 0 [[97, 98], [99, 100]]).2,
      ¬ e.2.content.length ≤ 1 + e.2.lastWrite := by decide

theorem jmapLookup_insert_self (k : Str) (v : Json) (m : List (Str × Json)) :
    jmapLookup k (jmapInsert k v m) = some v := by
  induction m with
  | nil => simp [jmapInsert, jmapLookup]
  | cons e rest ih =>
    obtain ⟨k', v'⟩ := e
    rw [jmapInsert]
    by_cases h1 : strLt k k' = true
    · rw [if_pos h1, jmapLookup, if_pos rfl]
    · rw [if_neg h1]
      by_cases h2 : k = k'
      · rw [if_pos h2, jmapLookup, if_pos rfl]
      · rw [if_neg h2, jmapLookup, if_neg (fun hc => h2 hc.symm)]
        exact ih

theorem jmapLookup_insert_ne {k k' : Str} (hne : k' ≠ k) (v : Json)
    (m : List (Str × Json)) :
    jmapLookup k (jmapInsert k' v m) = jmapLookup k m := by
  induction m with
  | nil => simp [jmapInsert, jmapLookup, hne]
  | cons e rest ih =>
    obtain ⟨a, b⟩ := e
    rw [jmapInsert]
    by_cases h1 : strLt k' a = true
    · rw [if_pos h1, jmapLookup, if_neg hne]
    · rw [if_neg h1]
      by_cases h2 : k' = a
      · rw [if_pos h2, jmapLookup, if_neg hne, jmapLookup, ← h2, if_neg hne]
      · rw [if_neg h2]
        by_cases h3 : a = k
        · rw [jmapLookup, if_pos h3, jmapLookup, if_pos h3]
        · rw [jmapLookup, if_neg h3, jmapLookup, if_neg h3]
          exact ih

theorem jmapLookup_insert_isSome {k k' : Str} {v : Json} {m : List (Str × Json)}
    (h : (jmapLookup k m).isSome = true) :
    (jmapLookup k (jmapInsert k' v m)).isSome = true := by
  by_cases hk : k' = k
  · subst hk
    rw [jmapLookup_insert_self]
    rfl
  · rw [jmapLookup_insert_ne hk]
    exact h

theorem pairsFold_isSome {k : Str} (pairs : List (Str × SDValue)) :
    ∀ m, (jmapLookup k m).isSome = true →
    (jmapLookup k (pairs.foldl (fun m p => jmapInsert p.1 (sdValueToJson p.2) m)
      m)).isSome = true := by
  induction pairs with
  | nil => exact fun m h => h
  | cons p ps ih =>
    intro m h
    rw [List.foldl_cons]
    exact ih _ (jmapLookup_insert_isSome h)

theorem pairsFold_ne {k : Str} (pairs : List (Str × SDValue)) :
    ∀ m, (∀ p ∈ pairs, p.1 ≠ k) →
    jmapLookup k (pairs.foldl (fun m p => jmapInsert p.1 (sdValueToJson p.2) m) m)
      = jmapLookup k m := by
  induction pairs with
  | nil => exact fun m _ => rfl
  | cons p ps ih =>
    intro m hk
    rw [List.foldl_cons]
    exact (ih _ (fun q hq => hk q (List.mem_cons_of_mem _ hq))).trans
      (jmapLookup_insert_ne (hk p (List.mem_cons_self _ _)) _ _)

theorem sdFold_isSome {k : Str} (sdVec : List StructuredData) :
    ∀ m, (jmapLookup k m).isSome = true →
    (jmapLookup k (sdVec.foldl (fun m sd =>
      let m := match sd.sd_id with
        | some sdId => jmapInsert "sd_id".data (.str sdId) m
        | none => m
      sd.pairs.foldl (fun m p => jmapInsert p.1 (sdValueToJson p.2) m) m)
      m)).isSome = true := by
  induction sdVec with
  | nil => exact fun m h => h
  | cons sd sds ih =>
    intro m h
    rw [List.foldl_cons]
    refine ih _ (pairsFold_isSome sd.pairs _ ?_)
    cases sd.sd_id with
    | none => exact h
    | some sdId => exact jmapLookup_insert_isSome h

theorem sdFold_ne {k : Str} (hkid : "sd_id".data ≠ k) (sdVec : List StructuredData) :
    ∀ m, (∀ sd ∈ sdVec, ∀ p ∈ sd.pairs, p.1 ≠ k) →
    jmapLookup k (sdVec.foldl (fun m sd =>
      let m := match sd.sd_id with
        | some sdId => jmapInsert "sd_id".data (.str sdId) m
        | none => m
      sd.pairs.foldl (fun m p => jmapInsert p.1 (sdValueToJson p.2) m) m) m)
      = jmapLookup k m := by
  induction sdVec with
  | nil => exact fun m _ => rfl
  | cons sd sds ih =>
    intro m hk
    rw [List.foldl_cons]
    refine (ih _ (fun s hs => hk s (List.mem_cons_of_mem _ hs))).trans ?_
    refine (pairsFold_ne sd.pairs _ (hk sd (List.mem_cons_self _ _))).trans ?_
    cases sd.sd_id with
    | none => rfl
    | some sdId => exact jmapLookup_insert_ne hkid _ _

theorem extraFold_isSome {k : Str} (extra : List (Str × Str)) :
    ∀ m, (jmapLookup k m).isSome = true →
    (jmapLookup k (extra.foldl (fun m p => jmapInsert p.1 (.str p.2) m)
      m)).isSome = true := by
  induction extra with
  | nil => exact fun m h => h
  | cons p ps ih =>
    intro m h
    rw [List.foldl_cons]
    exact ih _ (jmapLookup_insert_isSome h)

theorem extraFold_ne {k : Str} (extra : List (Str × Str)) :
    ∀ m, (∀ p ∈ extra, p.1 ≠ k) →
    jmapLookup k (extra.foldl (fun m p => jmapInsert p.1 (.str p.2) m) m)
      = jmapLookup k m := by
  induction extra with
  | nil => exact fun m _ => rfl
  | cons p ps ih =>
    intro m hk
    rw [List.foldl_cons]
    exact (ih _ (fun q hq => hk q (List.mem_cons_of_mem _ hq))).trans
      (jmapLookup_insert_ne (hk p (List.mem_cons_self _ _)) _ _)

theorem gelfBaseMap_version (record : Record) :
    jmapLookup "version".data (gelfBaseMap record) = some (.str "1.1".data) := by
  unfold gelfBaseMap
  rw [jmapLookup_insert_ne (show "timestamp".data ≠ "version".data by decide),
    jmapLookup_insert_ne (show "short_message".data ≠ "version".data by decide),
    jmapLookup_insert_ne (show "host".data ≠ "version".data by decide),
    jmapLookup_insert_self]

theorem gelfBaseMap_host (record : Record) :
    (jmapLookup "host".data (gelfBaseMap record)).isSome = true := by
  unfold gelfBaseMap
  rw [jmapLookup_insert_ne (show "timestamp".data ≠ "host".data by decide),
    jmapLookup_insert_ne (show "short_message".data ≠ "host".data by decide),
    jmapLookup_insert_self]
  rfl

theorem gelfBaseMap_short_message (record : Record) :
    (jmapLookup "short_message".data (gelfBaseMap record)).isSome = true := by
  unfold gelfBaseMap
  rw [jmapLookup_insert_ne (show "timestamp".data ≠ "short_message".data by decide),
    jmapLookup_insert_self]
  rfl

theorem gelfBaseMap_timestamp (record : Record) :
    (jmapLookup "timestamp".data (gelfBaseMap record)).isSome = true := by
  unfold gelfBaseMap
  rw [jmapLookup_insert_self]
  rfl

theorem gelfOptMap_isSome {k : Str} (record : Record)
    (h : (jmapLookup k (gelfBaseMap record)).isSome = true) :
    (jmapLookup k (gelfOptMap record)).isSome = true := by
  unfold gelfOptMap
  cases record.severity <;> cases record.full_msg <;> cases record.appname <;>
    cases record.procid <;>
    (repeat first | exact h | apply jmapLookup_insert_isSome)

theorem gelfOptMap_ne {k : Str} (h1 : "level".data ≠ k)
    (h2 : "full_message".data ≠ k) (h3 : "application_name".data ≠ k)
    (h4 : "process_id".data ≠ k) (record : Record) :
    jmapLookup k (gelfOptMap record) = jmapLookup k (gelfBaseMap record) := by
  unfold gelfOptMap
  cases record.severity <;> cases record.full_msg <;> cases record.appname <;>
    cases record.procid <;>
    simp only [jmapLookup_insert_ne h1, jmapLookup_insert_ne h2,
      jmapLookup_insert_ne h3, jmapLookup_insert_ne h4]

theorem gelfSdMap_isSome {k : Str} (record : Record)
    (h : (jmapLookup k (gelfOptMap record)).isSome = true) :
    (jmapLookup k (gelfSdMap record)).isSome = true := by
  unfold gelfSdMap
  cases record.sd with
  | none => exact h
  | some sdVec => exact sdFold_isSome sdVec _ h

theorem gelfSdMap_ne {k : Str} (hkid : "sd_id".data ≠ k) (record : Record)
    (hsd : ∀ sdVec, record.sd = some sdVec → ∀ sd ∈ sdVec, ∀ p ∈ sd.pairs, p.1 ≠ k) :
    jmapLookup k (gelfSdMap record) = jmapLookup k (gelfOptMap record) := by
  unfold gelfSdMap
  cases hrec : record.sd with
  | none => rfl
  | some sdVec => exact sdFold_ne hkid sdVec _ (hsd sdVec hrec)

/-- C4: for every record (and every configured `gelf_extra` list) the GELF
encoder succeeds, returning the UTF-8 JSON serialisation of the built
object, and that object contains the keys "version", "host",
"short_message" and "timestamp". The key "version" maps to the string
"1.1" provided no flattened structured-data pair and no `gelf_extra` pair
is itself named "version"; such a pair overwrites the encoder's value
(see the counterexample). -/
theorem gelf_encode_object_keys (extra : List (Str × Str)) (record : Record) :
    gelfEncode extra record =
      .ok (utf8Encode (serializeJson (.obj (gelfEncodeMap extra record)))) ∧
    (jmapLookup "version".data (gelfEncodeMap extra record)).isSome = true ∧
    (jmapLookup "host".data (gelfEncodeMap extra record)).isSome = true ∧
    (jmapLookup "short_message".data (gelfEncodeMap extra record)).isSome = true ∧
    (jmapLookup "timestamp".data (gelfEncodeMap extra record)).isSome = true ∧
    ((∀ sdVec, record.sd = some sdVec → ∀ sd ∈ sdVec, ∀ p ∈ sd.pairs,
        p.1 ≠ "version".data) →
      (∀ p ∈ extra, p.1 ≠ "version".data) →
      jmapLookup "version".data (gelfEncodeMap extra record) =
        some (.str "1.1".data)) := by
  have hmap : gelfEncodeMap extra record =
      extra.foldl (fun m p => jmapInsert p.1 (.str p.2) m) (gelfSdMap record) := rfl
  rw [hmap]
  refine ⟨rfl, ?_, ?_, ?_, ?_, ?_⟩
  · refine extraFold_isSome extra _ (gelfSdMap_isSome record (gelfOptMap_isSome record ?_))
    rw [gelfBaseMap_version]
    rfl
  · exact extraFold_isSome extra _
      (gelfSdMap_isSome record (gelfOptMap_isSome record (gelfBaseMap_host record)))
  · exact extraFold_isSome extra _
      (gelfSdMap_isSome record
        (gelfOptMap_isSome record (gelfBaseMap_short_message record)))
  · exact extraFold_isSome extra _
      (gelfSdMap_isSome record (gelfOptMap_isSome record (gelfBaseMap_timestamp record)))
  · intro hsd hextra
    rw [extraFold_ne extra _ hextra,
      gelfSdMap_ne (show "sd_id".data ≠ "version".data by decide) record hsd,
      gelfOptMap_ne (show "level".data ≠ "version".data by decide)
        (show "full_message".data ≠ "version".data by decide)
        (show "application_name".data ≠ "version".data by decide)
        (show "process_id".data ≠ "version".data by decide) record,
      gelfBaseMap_version]

/-- Witness for C4: the concrete record `c4WitRecord` with no configured
extra pairs carries `"version": "1.1"`. -/
theorem gelf_encode_object_keys_witness :
    jmapLookup "version".data (gelfEncodeMap [] c4WitRecord) =
      some (.str "1.1".data) :=
  (gelf_encode_object_keys [] c4WitRecord).2.2.2.2.2
    (fun _ hsv => Option.noConfusion hsv) (fun p hp => absurd hp (List.not_mem_nil p))

/-- Counterexample to C4 as stated: a configured `gelf_extra` pair named
"version" (here `version = "2.0"`) overwrites the encoder's
`"version": "1.1"` entry, so the emitted object no longer contains the
value "1.1". -/
theorem gelf_encode_version_overwritten_cex :
    jmapLookup "version".data
        (gelfEncodeMap [("version".data, "2.0".data)] c4WitRecord) =
      some (.str "2.0".data) := rfl
